import Mathlib

/-!
Verification of the jpre JDK manager against its specification.

This file shallowly embeds the core of the program:
* `src/java_version.rs` (version parsing, printing, comparison),
* `src/java_version/key.rs` (`VersionKey`),
* `src/checksum_verifier.rs` (`ChecksumVerifier::new`),
* `src/foojay.rs` (`get_latest_package_info_using_priority`),
* `src/jdk_manager.rs` (install pipeline, markers, unpacking),
* `src/command/remove_jdk.rs` and `src/java_home_management.rs`.

Strings are embedded as `List Char`; Rust `u32` values as `Nat` with an
explicit `< 2 ^ 32` bound where the source's overflow behaviour matters.
Fallible Rust code returns `Except`; a Rust `panic!` / failed `assert!` /
failed `expect` is the distinguished error value `PErr.panic`.
-/

/-- Error kind for embedded fallible code: `err` is an ordinary returned
error (`Report`/`Err` in the source), `panic` is a Rust panic
(`assert!`, `expect`, `unreachable!`, `panic!`). -/
inductive PErr
  | err
  | panic
deriving DecidableEq, Repr

/-! ## Character and string utilities (embedding Rust `str` operations) -/

/-- Rust `char::is_ascii_digit`: `'0'..='9'`. -/
def isAsciiDigit (c : Char) : Bool :=
  48 ≤ c.toNat && c.toNat ≤ 57

/-- The decimal digit character for `d < 10`, as produced by Rust's
`Display for u32`. -/
def digitChar (d : Nat) : Char :=
  Char.ofNat (48 + d)

/-- Digit accumulation for `natDec`, structurally recursive on the fuel so
that it evaluates inside the kernel. -/
def natDecAux : Nat → Nat → List Char
  | 0, _ => []
  | fuel + 1, n => if n = 0 then [] else natDecAux fuel (n / 10) ++ [digitChar (n % 10)]

/-- Decimal rendering of a number, as produced by Rust `write!("{}", n)`. -/
def natDec (n : Nat) : List Char :=
  if n = 0 then ['0'] else natDecAux n n

/-- Decimal rendering padded to width 2 with zeros, Rust `write!("{:02}", n)`. -/
def natDec2 (n : Nat) : List Char :=
  if n < 10 then '0' :: natDec n else natDec n

/-- Accumulating decimal read of a digit string. -/
def foldDigits (s : List Char) (acc : Nat) : Nat :=
  s.foldl (fun a c => a * 10 + (c.toNat - 48)) acc

/-- Rust `u32::from_str`: an optional leading `+`, then one or more ASCII
digits; fails on overflow past `u32::MAX`. -/
def rustParseU32 (s : List Char) : Option Nat :=
  let digits := match s with
    | '+' :: rest => rest
    | _ => s
  if digits.isEmpty then none
  else if digits.all isAsciiDigit then
    let n := foldDigits digits 0
    if n < 2 ^ 32 then some n else none
  else none

/-- Rust `str::split_once(c)`: split at the first occurrence of `c`. -/
def splitOnce (c : Char) : List Char → Option (List Char × List Char)
  | [] => none
  | x :: xs =>
    if x = c then some ([], xs)
    else (splitOnce c xs).map fun p => (x :: p.1, p.2)

/-- `SplittingExt::split_optional` from `src/string.rs`. -/
def splitOptional (c : Char) (s : List Char) : List Char × Option (List Char) :=
  match splitOnce c s with
  | some (a, b) => (a, some b)
  | none => (s, none)

/-- Rust `str::split('.')`: always yields at least one (possibly empty) part. -/
def splitDot : List Char → List (List Char)
  | [] => [[]]
  | c :: rest =>
    if c = '.' then [] :: splitDot rest
    else
      match splitDot rest with
      | [] => [[c]]
      | p :: ps => (c :: p) :: ps

/-- Is `c` one of the extra-data separators `+`, `-`, `_`
(`s.find(['+', '-', '_'])` in `JavaVersion::from_str`)? -/
def isSepChar (c : Char) : Bool :=
  c = '+' || c = '-' || c = '_'

/-- Split a string at the first separator character; the separator itself is
kept at the head of the second component, mirroring
`s.split_at(i)` on the found index in `JavaVersion::from_str`. -/
def splitAtFirstSep : List Char → List Char × Option (List Char)
  | [] => ([], none)
  | c :: rest =>
    if isSepChar c then ([], some (c :: rest))
    else
      let (a, b) := splitAtFirstSep rest
      (c :: a, b)

/-- Rust `str::starts_with(c)` for a single character. -/
def startsWithChar (s : List Char) (c : Char) : Bool :=
  s.head? = some c

/-! ## The version data model (`src/java_version.rs`) -/

/-- `PreRelease`: `Other < Numeric < None` (Rust `derive(Ord)` on the
declaration order `Other, Numeric, None`). -/
inductive PreRelease
  | other (tag : List Char)
  | numeric (n : Nat)
  | none
deriving DecidableEq, Repr

/-- `OldScheme { minor, patch, update, build }`. -/
structure OldScheme where
  minor : Nat
  patch : Nat
  update : Nat
  build : Option Nat
deriving DecidableEq, Repr

/-- `NewScheme { feature, interim, update, patch, trailing, pre_release,
build, opt }`. -/
structure NewScheme where
  feature : Nat
  interim : Nat
  update : Nat
  patch : Nat
  trailing : List Nat
  preRelease : PreRelease
  build : Option Nat
  opt : Option (List Char)
deriving DecidableEq, Repr

/-- `JavaVersion`: the old (`1.x`) or new (JEP-223/322) scheme. -/
inductive JavaVersion
  | old (v : OldScheme)
  | new (v : NewScheme)
deriving DecidableEq, Repr

/-- Lexicographic ordering on lists given an element ordering, as in Rust's
`Ord for Vec<T>` / `Ord for String` (a strict prefix is less). -/
def listCmp (cmp : α → α → Ordering) : List α → List α → Ordering
  | [], [] => .eq
  | [], _ :: _ => .lt
  | _ :: _, [] => .gt
  | a :: as, b :: bs =>
    match cmp a b with
    | .eq => listCmp cmp as bs
    | o => o

/-- Rust `Ord for char` (code-point order; equals byte order of UTF-8). -/
def charCmp (a b : Char) : Ordering :=
  compare a.toNat b.toNat

/-- Rust `Ord for Option<u32>`: `None < Some(_)`. -/
def optNatCmp : Option Nat → Option Nat → Ordering
  | Option.none, Option.none => .eq
  | Option.none, some _ => .lt
  | some _, Option.none => .gt
  | some a, some b => compare a b

/-- Derived `Ord for PreRelease`: variant order `Other < Numeric < None`,
payloads compared within a variant. -/
def PreRelease.cmp : PreRelease → PreRelease → Ordering
  | .other a, .other b => listCmp charCmp a b
  | .other _, .numeric _ => .lt
  | .other _, .none => .lt
  | .numeric _, .other _ => .gt
  | .numeric a, .numeric b => compare a b
  | .numeric _, .none => .lt
  | .none, .other _ => .gt
  | .none, .numeric _ => .gt
  | .none, .none => .eq

/-- `JavaVersion::compare`. The two cross-scheme arms contain
`assert!(minor < feature)` (resp. `feature > minor`); a failed assertion is
a Rust panic, embedded as `Except.error ()`. -/
def JavaVersion.compare : JavaVersion → JavaVersion → Except Unit Ordering
  | .old a, .old b =>
    .ok <|
      if a.minor ≠ b.minor then Ord.compare a.minor b.minor
      else if a.patch ≠ b.patch then Ord.compare a.patch b.patch
      else if a.update ≠ b.update then Ord.compare a.update b.update
      else optNatCmp a.build b.build
  | .old a, .new b =>
    if a.minor < b.feature then .ok .lt else .error ()
  | .new a, .old b =>
    if a.feature > b.minor then .ok .gt else .error ()
  | .new a, .new b =>
    .ok <|
      if a.feature ≠ b.feature then Ord.compare a.feature b.feature
      else if a.interim ≠ b.interim then Ord.compare a.interim b.interim
      else if a.update ≠ b.update then Ord.compare a.update b.update
      else if a.patch ≠ b.patch then Ord.compare a.patch b.patch
      else if a.trailing ≠ b.trailing then listCmp Ord.compare a.trailing b.trailing
      else if a.preRelease ≠ b.preRelease then a.preRelease.cmp b.preRelease
      else optNatCmp a.build b.build

/-! ## `ChecksumVerifier` (`src/checksum_verifier.rs`) -/

/-- Value of a hexadecimal digit character, as accepted by `hex::decode`. -/
def hexDigitVal (c : Char) : Option Nat :=
  if 48 ≤ c.toNat ∧ c.toNat ≤ 57 then some (c.toNat - 48)
  else if 97 ≤ c.toNat ∧ c.toNat ≤ 102 then some (c.toNat - 87)
  else if 65 ≤ c.toNat ∧ c.toNat ≤ 70 then some (c.toNat - 55)
  else none

/-- `hex::decode`: fails on odd length or any non-hex character. -/
def hexDecode : List Char → Option (List Nat)
  | [] => some []
  | [_] => none
  | a :: b :: rest =>
    match hexDigitVal a, hexDigitVal b, hexDecode rest with
    | some x, some y, some tail => some ((16 * x + y) :: tail)
    | _, _, _ => none

/-- `ChecksumVerifier::new(checksum, checksummer, delegate)`: decodes the
expected checksum from hex (panicking on failure) and panics when the
decoded length differs from the digest's `output_size()`. On success the
verifier holds the decoded expected digest bytes. -/
def checksumVerifierNew (checksum : List Char) (outputSize : Nat) :
    Except PErr (List Nat) :=
  match hexDecode checksum with
  | Option.none => .error .panic
  | some bytes =>
    if bytes.length = outputSize then .ok bytes else .error .panic

/-! ## Version printing (`Display` impls in `src/java_version.rs`) -/

/-- `Display for OldScheme`: `1.{minor}.{patch}`, `_{update}` when non-zero,
`-b{build:02}` when present. -/
def OldScheme.toChars (v : OldScheme) : List Char :=
  ['1', '.'] ++ natDec v.minor ++ '.' :: natDec v.patch
    ++ (if v.update ≠ 0 then '_' :: natDec v.update else [])
    ++ (match v.build with
        | some b => ['-', 'b'] ++ natDec2 b
        | Option.none => [])

/-- `Display for NewScheme`. -/
def NewScheme.toChars (v : NewScheme) : List Char :=
  let hasTrailing : Bool := !v.trailing.isEmpty
  let hasAtLeastPatch : Bool := (v.patch != 0) || hasTrailing
  let hasAtLeastUpdate : Bool := (v.update != 0) || hasAtLeastPatch
  natDec v.feature
    ++ (if (v.interim != 0) || hasAtLeastUpdate then '.' :: natDec v.interim else [])
    ++ (if (v.update != 0) || hasAtLeastPatch then '.' :: natDec v.update else [])
    ++ (if (v.patch != 0) || hasTrailing then '.' :: natDec v.patch else [])
    ++ (v.trailing.map fun t => '.' :: natDec t).flatten
    ++ (match v.preRelease with
        | .other s => '-' :: s
        | .numeric n => '-' :: natDec n
        | .none => [])
    ++ (match v.build with
        | some b => '+' :: natDec b
        | Option.none => [])
    ++ (match v.opt with
        | some o =>
          (if v.preRelease = .none ∧ v.build = Option.none then ['+'] else [])
            ++ '-' :: o
        | Option.none => [])

/-- `Display for JavaVersion`. -/
def JavaVersion.toChars : JavaVersion → List Char
  | .old v => v.toChars
  | .new v => v.toChars

/-! ## Version parsing (`FromStr` impls in `src/java_version.rs`) -/

/-- `parse_numeric_part`: a `u32` parse whose failure is an ordinary error. -/
def parseNumericPart (v : List Char) : Except PErr Nat :=
  match rustParseU32 v with
  | some n => .ok n
  | Option.none => .error .err

/-- `PreRelease::from_str`: an all-digit string without a superfluous leading
zero becomes `Numeric` (the inner `expect` panics when the `u32` parse
fails, i.e. on the empty string or on overflow); anything else is `Other`. -/
def PreRelease.fromStr (s : List Char) : Except PErr PreRelease :=
  if s.all isAsciiDigit && (s == ['0'] || !(startsWithChar s '0')) then
    match rustParseU32 s with
    | some n => .ok (.numeric n)
    | Option.none => .error .panic
  else .ok (.other s)

/-- The build-token closure inside `parse_old_scheme_extra`: must start with
`b`; `b0N` strips to `N`, otherwise the leading `b` is dropped. -/
def parseOldBuildToken (s : List Char) : Except PErr Nat :=
  if startsWithChar s 'b' then
    parseNumericPart
      (match s with
       | 'b' :: '0' :: rest => rest
       | _ => s.drop 1)
  else .error .err

/-- `parse_old_scheme_extra`: decodes `_UPDATE(-BUILD)?` or `-BUILD`
(the separator character is still at the head of `extra`). -/
def parseOldSchemeExtra (extra : Option (List Char)) :
    Except PErr (Nat × Option Nat) :=
  match extra with
  | Option.none => .ok (0, Option.none)
  | some e =>
    let (update, build) :=
      match e with
      | '_' :: rest => splitOptional '-' rest
      | _ => (['0'], some (e.drop 1))
    match parseNumericPart update with
    | .error er => .error er
    | .ok u =>
      match build with
      | Option.none => .ok (u, Option.none)
      | some s =>
        match parseOldBuildToken s with
        | .error er => .error er
        | .ok b => .ok (u, some b)

/-- `old_scheme`: requires exactly two further dot segments (minor, patch). -/
def oldScheme (dotParts : List (List Char)) (extra : Option (List Char)) :
    Except PErr JavaVersion :=
  match dotParts with
  | [] => .error .err
  | m :: rest =>
    match parseNumericPart m with
    | .error e => .error e
    | .ok minor =>
      match rest with
      | [] => .error .err
      | p :: rest2 =>
        match parseNumericPart p with
        | .error e => .error e
        | .ok patch =>
          if rest2.isEmpty then
            match parseOldSchemeExtra extra with
            | .error e => .error e
            | .ok (u, b) => .ok (.old ⟨minor, patch, u, b⟩)
          else .error .err

/-- `parse_new_scheme_extra`: decodes `+BUILD(-OPT)?`, `-PRE+BUILD(-OPT)?`,
`-PRE(-OPT)?` or `+-OPT` (the separator character is still at the head of
`extra`; in the `+BUILD` form `split_optional` is applied to the full extra,
so the build token keeps its leading `+` and relies on `u32`'s sign
handling). -/
def parseNewSchemeExtra (extra : Option (List Char)) :
    Except PErr (PreRelease × Option Nat × Option (List Char)) :=
  match extra with
  | Option.none => .ok (.none, Option.none, Option.none)
  | some e =>
    match e with
    | '+' :: '-' :: rest => .ok (.none, Option.none, some rest)
    | _ =>
      if startsWithChar e '+' then
        let (build, opt) := splitOptional '-' e
        match parseNumericPart build with
        | .error er => .error er
        | .ok b => .ok (.none, some b, opt)
      else
        match e with
        | '-' :: rest =>
          let (preMaybeBuild, opt) := splitOptional '-' rest
          let (pre, build) := splitOptional '+' preMaybeBuild
          match PreRelease.fromStr pre with
          | .error er => .error er
          | .ok pr =>
            match build with
            | Option.none => .ok (pr, Option.none, opt)
            | some bs =>
              match parseNumericPart bs with
              | .error er => .error er
              | .ok b => .ok (pr, some b, opt)
        | _ => .error .err

/-- `parse_opt_vnum_part` inside `new_scheme`: a missing positional segment
defaults to `0`. -/
def parseOptVnumPart (v : Option (List Char)) : Except PErr Nat :=
  match v with
  | Option.none => .ok 0
  | some s => parseNumericPart s

/-- `new_scheme`: digits-only leading segment without a leading zero, the
last segment must not be the literal `0`, positional interim/update/patch
then trailing numbers, then the extra data. -/
def newScheme (first : List Char) (dotParts : List (List Char))
    (extra : Option (List Char)) : Except PErr JavaVersion :=
  if !(first.all isAsciiDigit) then .error .err
  else if startsWithChar first '0' then .error .err
  else
    match parseNumericPart first with
    | .error e => .error e
    | .ok feature =>
      if dotParts.getLast? = some ['0'] then .error .err
      else
        match parseOptVnumPart dotParts.head? with
        | .error e => .error e
        | .ok interim =>
          match parseOptVnumPart dotParts[1]? with
          | .error e => .error e
          | .ok update =>
            match parseOptVnumPart dotParts[2]? with
            | .error e => .error e
            | .ok patch =>
              match (dotParts.drop 3).mapM parseNumericPart with
              | .error e => .error e
              | .ok trailing =>
                match parseNewSchemeExtra extra with
                | .error e => .error e
                | .ok (pr, b, o) =>
                  .ok (.new ⟨feature, interim, update, patch, trailing, pr, b, o⟩)

/-- `JavaVersion::from_str`: split at the first of `+`, `-`, `_` into the
numeric-dot part and the extra; a leading dot segment `1` selects the old
scheme. -/
def JavaVersion.fromStr (s : List Char) : Except PErr JavaVersion :=
  let (vnum, extra) := splitAtFirstSep s
  match splitDot vnum with
  | [] => .error .panic
  | first :: rest =>
    if first = ['1'] then oldScheme rest extra
    else newScheme first rest extra

/-! ## `VersionKey` (`src/java_version/key.rs`) -/

/-- `VersionKey { major, pre_release }`. -/
structure VersionKey where
  major : Nat
  preRelease : PreRelease
deriving DecidableEq, Repr

/-- `Display for VersionKey`: `{major}` or `{major}-{pre}`. -/
def VersionKey.toChars (k : VersionKey) : List Char :=
  natDec k.major
    ++ (match k.preRelease with
        | .other s => '-' :: s
        | .numeric n => '-' :: natDec n
        | .none => [])

/-- `FromStr for VersionKey`: split at the first `-`; the major part is a
`u32`, the remainder parses as a `PreRelease`. -/
def VersionKey.fromStr (s : List Char) : Except PErr VersionKey :=
  let (major, pre) := splitOptional '-' s
  match rustParseU32 major with
  | Option.none => .error .err
  | some m =>
    match pre with
    | Option.none => .ok ⟨m, .none⟩
    | some p =>
      match PreRelease.fromStr p with
      | .error e => .error e
      | .ok pr => .ok ⟨m, pr⟩

/-! ## Foojay package metadata (`src/foojay.rs`) -/

/-- `FoojayDiscoApiError`. -/
inductive FoojayDiscoApiError
  | api
  | invalidDistribution
deriving DecidableEq, Repr

/-- `ArchiveType`: `tar.gz`, `zip`, or an unrecognized tag. -/
inductive ArchiveType
  | tarGz
  | zip
  | unknown (tag : List Char)
deriving DecidableEq, Repr

/-- `ChecksumType`: `sha256` or an unrecognized tag. -/
inductive ChecksumType
  | sha256
  | unknown (tag : List Char)
deriving DecidableEq, Repr

/-- `FoojayPackageListInfo` (the fields the install pipeline reads). -/
structure FoojayPackageListInfo where
  archiveType : ArchiveType
  javaVersion : JavaVersion
  latestBuildAvailable : Bool
deriving DecidableEq, Repr

/-- `FoojayPackageInfo`; the download URI is embedded as an abstract
identifier. -/
structure FoojayPackageInfo where
  directDownloadUri : Nat
  checksum : List Char
  checksumType : ChecksumType
deriving DecidableEq, Repr

/-- A distribution name from the configuration. -/
abbrev DistName := List Char

/-- The network-bound `FoojayDiscoApi::get_latest_package_info` is embedded
as an oracle from the distribution name to its outcome. -/
abbrev Resolver :=
  DistName → Except FoojayDiscoApiError (FoojayPackageListInfo × FoojayPackageInfo)

/-- The `for result in iter` loop of
`get_latest_package_info_using_priority`: try each remaining distribution in
order, returning the first success, otherwise pushing every error. The
second component records which distributions were attempted. -/
def priorityLoop (resolver : Resolver) :
    List DistName → List FoojayDiscoApiError → List DistName →
      Except (List FoojayDiscoApiError)
          (FoojayPackageListInfo × FoojayPackageInfo) ×
        List DistName
  | [], errs, attempted => (.error errs, attempted)
  | d :: rest, errs, attempted =>
    match resolver d with
    | .ok r => (.ok r, attempted ++ [d])
    | .error e => priorityLoop resolver rest (errs ++ [e]) (attempted ++ [d])

/-- `FoojayDiscoApi::get_latest_package_info_using_priority`: panics
(`expect`) when no distribution is configured; otherwise tries the first
distribution, then falls into the loop with its error recorded. On total
failure the report aggregates every per-distribution error. -/
def getLatestPackageInfoUsingPriority (resolver : Resolver) (ds : List DistName) :
    Except PErr
      (Except (List FoojayDiscoApiError)
          (FoojayPackageListInfo × FoojayPackageInfo) ×
        List DistName) :=
  match ds with
  | [] => .error .panic
  | d0 :: rest =>
    match resolver d0 with
    | .ok r => .ok (.ok r, [d0])
    | .error e0 => .ok (priorityLoop resolver rest [e0] [d0])

/-- A concrete package used by witnesses. -/
def samplePkg : FoojayPackageListInfo × FoojayPackageInfo :=
  (⟨.tarGz, .new ⟨9, 0, 0, 0, [], PreRelease.none, Option.none, Option.none⟩, true⟩,
   ⟨0, ['0', '0'], .sha256⟩)

/-- A concrete resolver: distribution `A` fails, every other one succeeds. -/
def sampleResolver : Resolver := fun d =>
  if d = ['A'] then .error .api else .ok samplePkg

/-! ## Archive entries and extraction (`JdkManager::unpack_jdk`) -/

/-- One component of an archive entry's path: a normal name, `..`, or `.`. -/
inductive PathComp
  | normal (name : List Char)
  | parentDir
  | curDir
deriving DecidableEq, Repr

/-- An archive entry's path: its components, with `absolute` recording a
leading `RootDir` (or Windows `Prefix`) component. -/
structure EntryPath where
  absolute : Bool
  comps : List PathComp
deriving DecidableEq, Repr

/-- The component loop of tar-rs `Entry::unpack_in`, called by the `tar.gz`
arm of `unpack_jdk`: `Prefix`, `RootDir` and `.` components are ignored
("Leading '/'s are trimmed"), a `..` component anywhere makes the call
return `Ok(false)` (nothing written), and the remaining normal components
form the path under the destination. -/
def tarStrip : List PathComp → Option (List (List Char))
  | [] => some []
  | .normal n :: rest => (tarStrip rest).map fun t => n :: t
  | .curDir :: rest => tarStrip rest
  | .parentDir :: _ => Option.none

/-- `tar::Entry::unpack_in dst`: `some w` models `Ok(true)` — the entry is
extracted at `dst` joined with `w`; `none` models `Ok(false)` — a `..`
component, or a path reducing to the empty name (`file_dst == dst`). The
`absolute` flag is ignored: root components are trimmed and the entry is
extracted inside `dst`, not skipped. -/
def tarUnpackIn (p : EntryPath) : Option EntryPath :=
  match tarStrip p.comps with
  | Option.none => Option.none
  | some [] => Option.none
  | some (n :: rest) => some ⟨false, (n :: rest).map PathComp.normal⟩

/-- The depth loop of zip's `ZipFile::enclosed_name`: a normal component
pushes one level, `.` is a no-op, and `..` pops one level, failing
(`checked_sub`) when it would climb above the start. `zipDepthOk cs 0`
therefore also states that the path `cs` resolves at or below the directory
it is joined to. -/
def zipDepthOk : List PathComp → Nat → Bool
  | [], _ => true
  | .normal _ :: rest, d => zipDepthOk rest (d + 1)
  | .curDir :: rest, d => zipDepthOk rest d
  | .parentDir :: rest, d =>
    match d with
    | 0 => false
    | d' + 1 => zipDepthOk rest d'

/-- `ZipFile::enclosed_name`: `none` for an absolute path (`RootDir` or
`Prefix` component) or when the `..` components would escape the start;
otherwise the path is returned unchanged — interior `..` that stays inside
is accepted. (Its `None` on a file name containing a NUL byte is below this
component-level abstraction.) -/
def enclosedName (p : EntryPath) : Option EntryPath :=
  if p.absolute then Option.none
  else if zipDepthOk p.comps 0 then some p else Option.none

/-- Filesystem resolution of a written path: a normal component descends,
`.` is a no-op and `..` pops the last component. -/
def resolveAux : List PathComp → List (List Char) → List (List Char)
  | [], acc => acc.reverse
  | .normal n :: rest, acc => resolveAux rest (n :: acc)
  | .curDir :: rest, acc => resolveAux rest acc
  | .parentDir :: rest, acc => resolveAux rest acc.tail

/-- The relative path below the extraction directory at which a written
entry lands on disk, once the filesystem resolves its `.` and `..`
components. -/
def entryRel (p : EntryPath) : List (List Char) :=
  resolveAux p.comps []

/-- Result of an extraction loop: the raw paths written under the
extraction directory, in order, and the entries skipped with a warning. -/
structure UnpackOutcome where
  writes : List EntryPath
  skipped : List EntryPath
deriving DecidableEq, Repr

/-- The per-entry loop shape shared by the `tar.gz` and `zip` arms of
`unpack_jdk`, over the arm's path check: an entry the check rejects is
skipped with a warning (`"Not extracting file with unsafe path"`) and the
loop continues; any other entry is written at the path the check returned,
joined to the extraction directory. -/
def unpackLoop (step : EntryPath → Option EntryPath) :
    List EntryPath → UnpackOutcome
  | [] => ⟨[], []⟩
  | e :: rest =>
    let o := unpackLoop step rest
    match step e with
    | some w => ⟨w :: o.writes, o.skipped⟩
    | Option.none => ⟨o.writes, e :: o.skipped⟩

/-- `JdkManager::unpack_jdk`, after archive decoding: the `ArchiveType::Unknown`
arm is `unreachable!` (a panic). -/
def unpackJdk (ty : ArchiveType) (entries : List EntryPath) :
    Except PErr UnpackOutcome :=
  match ty with
  | .tarGz => .ok (unpackLoop tarUnpackIn entries)
  | .zip => .ok (unpackLoop enclosedName entries)
  | .unknown _ => .error .panic

/-! ## The JDK store filesystem model (`src/jdk_manager.rs`) -/

/-- The directory for one key in the JDK store. `tree = none` models the
freshly-created empty directory of step 1 of the install; `tree = some ws`
models the unpacked JDK tree renamed into place (its relative file paths).
`marker` is the content of `.jdk_marker_with_version`; `legacy` records the
presence of the legacy `.jdk_marker`. -/
structure KeyDir where
  tree : Option (List (List (List Char)))
  marker : Option (List Char)
  legacy : Bool
deriving DecidableEq, Repr

/-- The slice of the filesystem the manager touches: the JDK store (named
directories), the temporary download file, the temporary unpack directory,
and the per-context symlink (`ctxLink`, holding the name of the store
directory it points at). -/
structure JdkFs where
  store : List (List Char × KeyDir)
  dlTemp : Option (List Nat)
  unpackTemp : Option (List (List (List Char)))
  ctxLink : Option (List Char)
deriving DecidableEq, Repr

/-- `std::fs::remove_dir_all` on a store directory. -/
def eraseStore (name : List Char) (st : List (List Char × KeyDir)) :
    List (List Char × KeyDir) :=
  st.filter fun e => !(e.1 == name)

/-- Directory lookup by name. -/
def lookupStore (name : List Char) (st : List (List Char × KeyDir)) :
    Option KeyDir :=
  (st.find? fun e => e.1 == name).map Prod.snd

/-- Replace-or-create a store directory. -/
def upsertStore (name : List Char) (d : KeyDir)
    (st : List (List Char × KeyDir)) : List (List Char × KeyDir) :=
  eraseStore name st ++ [(name, d)]

/-- `jdk_path(jdk)`: the store directory name is the key's canonical
rendering. -/
def jdkDirName (key : VersionKey) : List Char :=
  key.toChars

/-- The loop body of `JdkManager::get_installed_jdks`: a directory counts as
an installed JDK when its name parses as a `VersionKey` and either marker
file exists; a parse panic propagates. -/
def installedLoop : List (List Char × KeyDir) → Except PErr (List VersionKey)
  | [] => .ok []
  | (name, d) :: rest =>
    match VersionKey.fromStr name with
    | .error .panic => .error .panic
    | .error .err => installedLoop rest
    | .ok k =>
      if d.marker.isSome || d.legacy then
        match installedLoop rest with
        | .error e => .error e
        | .ok ks => .ok (k :: ks)
      else installedLoop rest

/-- `JdkManager::get_installed_jdks`. -/
def getInstalledJdks (fs : JdkFs) : Except PErr (List VersionKey) :=
  installedLoop fs.store

/-- `JdkManager::get_full_version_from_path`: absent versioned marker means
`Ok(None)`; otherwise the marker content must parse as a `JavaVersion`. -/
def getFullVersionFromPath (d : Option KeyDir) :
    Except PErr (Option JavaVersion) :=
  match d with
  | Option.none => .ok Option.none
  | some dir =>
    match dir.marker with
    | Option.none => .ok Option.none
    | some content =>
      match JavaVersion.fromStr content with
      | .error e => .error e
      | .ok v => .ok (some v)

/-- `JdkManager::get_full_version`. -/
def getFullVersion (fs : JdkFs) (key : VersionKey) :
    Except PErr (Option JavaVersion) :=
  getFullVersionFromPath (lookupStore (jdkDirName key) fs.store)

/-! ## The install pipeline (`JdkManager::download_jdk`) -/

/-- The environment-dependent effects of the pipeline, passed as oracles:
the package resolution per distribution, the HTTP download stream per URI,
the SHA-256 digest function, the archive decoding (gzip+tar or zip) of the
downloaded bytes, the OS check for the macOS bundle subpath, and whether the
best-effort deletions of the two temporary artifacts succeed. -/
structure InstallOracles where
  resolver : Resolver
  httpGet : Nat → Except Unit (List Nat)
  hash : List Nat → List Nat
  parseEntries : ArchiveType → List Nat → Except PErr (List EntryPath)
  osMac : Bool
  dlCloseOk : Bool
  unpackCloseOk : Bool

/-- `JdkManager::download_jdk_to_file`: create the download file, build the
`ChecksumVerifier` (the `ChecksumType::Unknown` arm is `unreachable!`, and
`ChecksumVerifier::new` itself can panic on a malformed expected checksum),
stream the response through the verifier into the file, then fail when the
digest of the streamed bytes differs from the expected digest. -/
def downloadJdkToFile (o : InstallOracles) (info : FoojayPackageInfo)
    (bytes : List Nat) (fs : JdkFs) : JdkFs × Except PErr Unit :=
  let fs := { fs with dlTemp := some [] }
  match info.checksumType with
  | .unknown _ => (fs, .error .panic)
  | .sha256 =>
    match checksumVerifierNew info.checksum 32 with
    | .error p => (fs, .error p)
    | .ok expected =>
      let fs := { fs with dlTemp := some bytes }
      if o.hash bytes == expected then (fs, .ok ()) else (fs, .error .err)

/-- Is `p` a (possibly improper) path-component prefix of `w`? -/
def isPrefixListOf : List (List Char) → List (List Char) → Bool
  | [], _ => true
  | _ :: _, [] => false
  | a :: as, b :: bs => a == b && isPrefixListOf as bs

/-- `Path::exists` inside the unpack directory: the path is a written file
or a directory some write lives under. -/
def pathExistsIn (writes : List (List (List Char))) (p : List (List Char)) :
    Bool :=
  writes.any fun w => isPrefixListOf p w

/-- The immediate children of the unpack directory (`read_dir`). -/
def topLevelNames (writes : List (List (List Char))) : List (List Char) :=
  (writes.filterMap List.head?).eraseDups

/-- `JdkManager::determine_jdk_root` over the unpack directory's contents:
ignore dot-entries; exactly one top-level entry means descend into it; on
macOS descend further into `Contents/Home` when present; require
`bin/java` under the candidate. The result is the root path relative to the
unpack directory. -/
def determineJdkRoot (osMac : Bool) (writes : List (List (List Char))) :
    Except PErr (List (List Char)) :=
  let entries := (topLevelNames writes).filter fun n => !(startsWithChar n '.')
  let baseDir : List (List Char) :=
    match entries with
    | [e] => [e]
    | _ => []
  let contentsHome := baseDir ++ ["Contents".toList, "Home".toList]
  let possibleHome :=
    if osMac then
      if pathExistsIn writes contentsHome then contentsHome else baseDir
    else baseDir
  if pathExistsIn writes (possibleHome ++ ["bin".toList, "java".toList]) then
    .ok possibleHome
  else .error .err

/-- Relative path of `w` below `root`, when `w` lies below it. -/
def stripRootPath : List (List Char) → List (List Char) →
    Option (List (List Char))
  | [], w => some w
  | _ :: _, [] => Option.none
  | r :: rs, a :: as => if a == r then stripRootPath rs as else Option.none

/-- `JdkManager::cleanup_unpack_dir`: best-effort close of the unpack temp
directory; a deletion failure is only warned about. -/
def cleanupUnpack (o : InstallOracles) (fs : JdkFs) : JdkFs :=
  if o.unpackCloseOk then { fs with unpackTemp := Option.none } else fs

/-- Dropping the `TempPath` of the download file: `download_path` is a
`tempfile::TempPath`, so the temporary download file is deleted
(best-effort) whenever `download_jdk` returns after creating it — either
through the explicit `close()` on the checksum-failure path or through the
implicit drop on every later exit. -/
def dlTempDrop (o : InstallOracles) (fs : JdkFs) : JdkFs :=
  if o.dlCloseOk then { fs with dlTemp := Option.none } else fs

/-- `JdkManager::download_jdk`:
1. remove any existing store directory for the key and create a fresh empty
   one;
2. resolve a package through the distribution priority list;
3. open the download stream, create the temp file, stream + checksum-verify
   (on failure: best-effort delete of the temp file, then return the error);
4. create the unpack temp directory, decode and extract the archive;
5. determine and validate the JDK root;
6. `fs::rename` the root onto the key's store directory (the commit point);
7. write the marker through a temp file rename.
Failures in steps 4–5 run `cleanup_unpack_dir` before returning. -/
def downloadJdk (o : InstallOracles) (ds : List DistName) (key : VersionKey)
    (fs : JdkFs) : JdkFs × Except PErr Unit :=
  let name := jdkDirName key
  let fs := { fs with store := upsertStore name ⟨Option.none, Option.none, false⟩ fs.store }
  match getLatestPackageInfoUsingPriority o.resolver ds with
  | .error p => (fs, .error p)
  | .ok (.error _, _) => (fs, .error .err)
  | .ok (.ok (listInfo, info), _) =>
    match o.httpGet info.directDownloadUri with
    | .error _ => (fs, .error .err)
    | .ok bytes =>
      match downloadJdkToFile o info bytes fs with
      | (fs1, .error e) =>
        (dlTempDrop o fs1, .error e)
      | (fs1, .ok ()) =>
        let fs2 := { fs1 with unpackTemp := some [] }
        match o.parseEntries listInfo.archiveType bytes with
        | .error e => (dlTempDrop o (cleanupUnpack o fs2), .error e)
        | .ok entries =>
          match unpackJdk listInfo.archiveType entries with
          | .error e => (dlTempDrop o (cleanupUnpack o fs2), .error e)
          | .ok outcome =>
            let written := outcome.writes.map entryRel
            let fs3 := { fs2 with unpackTemp := some written }
            match determineJdkRoot o.osMac written with
            | .error e => (dlTempDrop o (cleanupUnpack o fs3), .error e)
            | .ok root =>
              let subtree := written.filterMap (stripRootPath root)
              let leftover := written.filter fun w => !(isPrefixListOf root w)
              let fs4 := { fs3 with
                store := upsertStore name ⟨some subtree, Option.none, false⟩ fs3.store,
                unpackTemp := if root.isEmpty then Option.none else some leftover }
              let fs5 := cleanupUnpack o fs4
              let fs6 := { fs5 with
                store := upsertStore name
                  ⟨some subtree, some listInfo.javaVersion.toChars, false⟩ fs5.store }
              (dlTempDrop o fs6, .ok ())

/-- `JdkManager::get_jdk_path`: install on a cache miss, then return the
canonical path. The boolean records whether `download_jdk` ran. -/
def getJdkPath (o : InstallOracles) (ds : List DistName) (key : VersionKey)
    (fs : JdkFs) : (JdkFs × Except PErr Unit) × Bool :=
  match getInstalledJdks fs with
  | .error e => ((fs, .error e), false)
  | .ok ks =>
    if key ∈ ks then ((fs, .ok ()), false)
    else (downloadJdk o ds key fs, true)

/-- `clear_context_path` (`src/java_home_management.rs`): remove the
per-context symlink; absence is not an error. -/
def clearContextPath (fs : JdkFs) : JdkFs × Except PErr Unit :=
  ({ fs with ctxLink := Option.none }, .ok ())

/-- `RemoveJdk::run` (`src/command/remove_jdk.rs`): obtain the path via
`get_jdk_path` (installing on a cache miss), then `remove_dir_all` it. The
per-context symlink is not touched. -/
def removeJdkRun (o : InstallOracles) (ds : List DistName) (key : VersionKey)
    (fs : JdkFs) : (JdkFs × Except PErr Unit) × Bool :=
  match getJdkPath o ds key fs with
  | ((fs1, .error e), dl) => ((fs1, .error e), dl)
  | ((fs1, .ok ()), dl) =>
    match lookupStore (jdkDirName key) fs1.store with
    | Option.none => ((fs1, .error .err), dl)
    | some _ =>
      (({ fs1 with store := eraseStore (jdkDirName key) fs1.store }, .ok ()), dl)

/-! ## Concrete sample data for counterexamples and witnesses -/

/-- The freshly created, still-empty install directory of step 1. -/
def emptyKeyDir : KeyDir := ⟨Option.none, Option.none, false⟩

/-- The version `9`. -/
def ver9 : JavaVersion :=
  .new ⟨9, 0, 0, 0, [], PreRelease.none, Option.none, Option.none⟩

/-- The key `9`. -/
def key9 : VersionKey := ⟨9, PreRelease.none⟩

/-- An empty filesystem state. -/
def emptyFs : JdkFs := ⟨[], Option.none, Option.none, Option.none⟩

/-- A well-formed SHA-256 checksum string (64 hex characters, decoding to
32 zero bytes). -/
def goodChecksum : List Char :=
  String.toList (String.join (List.replicate 32 "00"))

/-- A safe extracted tree with a single root `jdk` containing `bin/java`. -/
def sampleEntries : List EntryPath :=
  [⟨false, [.normal "jdk".toList]⟩,
    ⟨false, [.normal "jdk".toList, .normal "bin".toList]⟩,
    ⟨false, [.normal "jdk".toList, .normal "bin".toList, .normal "java".toList]⟩]

/-- Oracles under which the whole install pipeline succeeds. -/
def sampleOracles : InstallOracles :=
  { resolver := fun _ => .ok (⟨.tarGz, ver9, true⟩, ⟨0, goodChecksum, .sha256⟩)
    httpGet := fun _ => .ok [1, 2, 3]
    hash := fun _ => List.replicate 32 0
    parseEntries := fun _ _ => .ok sampleEntries
    osMac := false
    dlCloseOk := true
    unpackCloseOk := true }

/-- Oracles where package resolution fails for every distribution. -/
def resolveFailOracles : InstallOracles :=
  { sampleOracles with resolver := fun _ => .error .api }

/-- Oracles where the downloaded bytes hash to a digest different from the
advertised checksum (one corrupted byte). -/
def mismatchOracles : InstallOracles :=
  { sampleOracles with hash := fun _ => List.replicate 32 1 }

/-! ## C5: `remove` and the per-context symlink -/

/-- An installed JDK `9` whose directory is the current target of the
per-context symlink. -/
def fsLinkedAt9 : JdkFs :=
  ⟨[(['9'], ⟨some [], some ['9'], false⟩)], Option.none, Option.none, some ['9']⟩

/-- A store holding one directory `9` with only the legacy marker. -/
def fsLegacy9 : JdkFs :=
  ⟨[(['9'], ⟨Option.none, Option.none, true⟩)], Option.none, Option.none, Option.none⟩

/-- The state of the store directory `9` right after a successful install
under `sampleOracles`. -/
def installed9Dir : KeyDir :=
  ⟨some [[], ["bin".toList], ["bin".toList, "java".toList]], some ['9'], false⟩

/-- The filesystem right after installing key `9` into `emptyFs` under
`sampleOracles`. -/
def fsAfterInstall9 : JdkFs :=
  ⟨[(['9'], installed9Dir)], Option.none, Option.none, Option.none⟩

/-! ## C6: round-trip of parsing and printing -/

/-- Canonicity of a pre-release payload: the rendering `-{pre}` re-parses to
the same `PreRelease`. An `Other` tag must be non-empty (the empty tag makes
`PreRelease::from_str` panic), must not contain `+` or `-` (they would be
cut off by the extra-data splitting), and must not itself look like a
canonical number (it would re-parse as `Numeric`). -/
def CanonPre : PreRelease → Bool
  | .none => true
  | .numeric n => decide (n < 2 ^ 32)
  | .other tag =>
    !tag.isEmpty &&
    tag.all (fun c => !(c == '+' || c == '-')) &&
    !(tag.all isAsciiDigit && (tag == ['0'] || !(startsWithChar tag '0')))

/-- A `u32`-representable optional build number. -/
def CanonBuild : Option Nat → Bool
  | Option.none => true
  | some b => decide (b < 2 ^ 32)

/-- Canonicity of an old-scheme value: all fields `u32`-representable. -/
def CanonOld (v : OldScheme) : Bool :=
  decide (v.minor < 2 ^ 32) && decide (v.patch < 2 ^ 32) &&
    decide (v.update < 2 ^ 32) && CanonBuild v.build

/-- Canonicity of a new-scheme value: the feature is at least `2` (features
`0` and `1` cannot be produced by parsing: a leading `0` is rejected and a
leading `1` selects the old scheme), all numbers are `u32`-representable,
the trailing list must not end in `0` (the printed form would end in a `.0`
segment, which parsing rejects), and the pre-release payload is canonical.
The `opt` payload is unconstrained. -/
def CanonNew (v : NewScheme) : Bool :=
  decide (2 ≤ v.feature) && decide (v.feature < 2 ^ 32) &&
    decide (v.interim < 2 ^ 32) && decide (v.update < 2 ^ 32) &&
    decide (v.patch < 2 ^ 32) &&
    v.trailing.all (fun t => decide (t < 2 ^ 32)) &&
    (match v.trailing.getLast? with
     | some t => decide (t ≠ 0)
     | Option.none => true) &&
    CanonPre v.preRelease && CanonBuild v.build

/-- Canonicity of a version value. -/
def CanonJava : JavaVersion → Bool
  | .old v => CanonOld v
  | .new v => CanonNew v

/-- Join dot-separated parts: each part is printed with a leading `.`. -/
def dotJoin (ps : List (List Char)) : List Char :=
  (ps.map fun p => '.' :: p).flatten

/-- The dot-segments after the feature number, as printed by
`Display for NewScheme` (interim, update, patch are printed exactly when
some later field forces them; trailing always prints). -/
def newParts (v : NewScheme) : List (List Char) :=
  (if (v.interim != 0) || ((v.update != 0) || ((v.patch != 0) || !v.trailing.isEmpty))
    then [natDec v.interim] else []) ++
  (if (v.update != 0) || ((v.patch != 0) || !v.trailing.isEmpty)
    then [natDec v.update] else []) ++
  (if (v.patch != 0) || !v.trailing.isEmpty then [natDec v.patch] else []) ++
  v.trailing.map natDec

/-- The extra data (pre-release, build, opt) as printed by
`Display for NewScheme`. -/
def newExtraChars (v : NewScheme) : List Char :=
  (match v.preRelease with
    | .other s => '-' :: s
    | .numeric n => '-' :: natDec n
    | .none => []) ++
  (match v.build with
    | some b => '+' :: natDec b
    | Option.none => []) ++
  (match v.opt with
    | some o =>
      (if v.preRelease = .none ∧ v.build = Option.none then ['+'] else [])
        ++ '-' :: o
    | Option.none => [])

/-- A canonical sample value: `17.0.2-ea+7-LTS`. -/
def sampleVersion : JavaVersion :=
  .new ⟨17, 0, 2, 0, [], .other "ea".toList, some 7, some "LTS".toList⟩

/-! ## C3: scheme ordering -/

/-- C3 (counterexample): the claim says `compare(a, b)` returns `Less` for
every OldScheme `a` and NewScheme `b`, "including when the old-scheme minor
is numerically greater than or equal to the new-scheme feature". At
`a = OldScheme{minor: 9, patch: 0, update: 0}` and `b = NewScheme{feature: 9}`
the `assert!(self_minor < other_feature)` in `JavaVersion::compare` fails,
so the call panics instead of returning `Less`. -/
theorem compare_scheme_panic_counterexample :
    ¬ (JavaVersion.compare (.old ⟨9, 0, 0, Option.none⟩)
        (.new ⟨9, 0, 0, 0, [], PreRelease.none, Option.none, Option.none⟩)
          = .ok .lt) := by
  simp [JavaVersion.compare]

/-- C3 (amended): for every pair of versions `a` (OldScheme) and `b`
(NewScheme) with `a.minor < b.feature`, `compare(a, b)` returns `Less` and
`compare(b, a)` returns `Greater`; when `a.minor ≥ b.feature` the comparison
panics on a failed assertion instead of returning. -/
theorem compare_old_below_new (a : OldScheme) (b : NewScheme)
    (h : a.minor < b.feature) :
    JavaVersion.compare (.old a) (.new b) = .ok .lt ∧
      JavaVersion.compare (.new b) (.old a) = .ok .gt := by
  constructor <;> simp [JavaVersion.compare, h]

/-- Witness for `compare_old_below_new` at `1.8.0` versus `9`. -/
theorem compare_old_below_new_witness :
    (⟨8, 0, 0, Option.none⟩ : OldScheme).minor
        < (⟨9, 0, 0, 0, [], PreRelease.none, Option.none, Option.none⟩ :
            NewScheme).feature ∧
      (JavaVersion.compare (.old ⟨8, 0, 0, Option.none⟩)
          (.new ⟨9, 0, 0, 0, [], PreRelease.none, Option.none, Option.none⟩)
            = .ok .lt ∧
        JavaVersion.compare
            (.new ⟨9, 0, 0, 0, [], PreRelease.none, Option.none, Option.none⟩)
            (.old ⟨8, 0, 0, Option.none⟩) = .ok .gt) :=
  ⟨by decide, compare_old_below_new _ _ (by decide)⟩

/-! ## C10: `ChecksumVerifier::new` panics on malformed expected checksums -/

/-- C10: `ChecksumVerifier::new` never returns an ordinary error value: it
either panics (expected checksum is not valid hex, or its decoded length
differs from the digest's output size) or returns normally, and it returns
normally exactly when the expected checksum decodes as hex to exactly
`outputSize` bytes. -/
theorem checksumVerifierNew_ok_iff (s : List Char) (os : Nat) :
    ((∃ b, checksumVerifierNew s os = .ok b) ↔
      ∃ b, hexDecode s = some b ∧ b.length = os) ∧
    ∀ e, checksumVerifierNew s os = .error e → e = .panic := by
  unfold checksumVerifierNew
  cases h : hexDecode s with
  | none => simp
  | some b =>
    by_cases hl : b.length = os <;> simp [hl]

/-- Witness for `checksumVerifierNew_ok_iff`: `"0a"` is well-formed hex of
one byte, so construction with a one-byte digest returns normally. -/
theorem checksumVerifierNew_ok_iff_witness :
    ∃ b, checksumVerifierNew ['0', 'a'] 1 = .ok b :=
  (checksumVerifierNew_ok_iff ['0', 'a'] 1).1.mpr ⟨[10], by decide, by decide⟩

theorem priorityLoop_success (resolver : Resolver) :
    ∀ (l : List DistName) (errs : List FoojayDiscoApiError) (att : List DistName)
      (i : Nat) (hi : i < l.length),
      (∀ j (hj : j < i), ∃ e, resolver (l.get ⟨j, Nat.lt_trans hj hi⟩) = .error e) →
      ∀ r, resolver (l.get ⟨i, hi⟩) = .ok r →
        priorityLoop resolver l errs att = (.ok r, att ++ l.take (i + 1))
  | [], _, _, i, hi => by simp at hi
  | d :: rest, errs, att, 0, hi => by
    intro _ r hr
    simp only [List.get] at hr
    simp [priorityLoop, hr]
  | d :: rest, errs, att, i + 1, hi => by
    intro hprev r hr
    have h0 : ∃ e, resolver d = .error e := hprev 0 (Nat.succ_pos i)
    obtain ⟨e, he⟩ := h0
    simp only [priorityLoop, he]
    have ih := priorityLoop_success resolver rest (errs ++ [e]) (att ++ [d]) i
      (Nat.lt_of_succ_lt_succ hi)
      (fun j hj => hprev (j + 1) (Nat.succ_lt_succ hj)) r hr
    rw [ih]
    simp [List.take_succ_cons]

theorem priorityLoop_all_fail (resolver : Resolver) :
    ∀ (l : List DistName) (errs : List FoojayDiscoApiError) (att : List DistName),
      (∀ d ∈ l, ∃ e, resolver d = .error e) →
      ∃ tailErrs,
        priorityLoop resolver l errs att = (.error (errs ++ tailErrs), att ++ l) ∧
        tailErrs.length = l.length ∧
        ∀ i (hi : i < l.length) (hi' : i < tailErrs.length),
          resolver (l.get ⟨i, hi⟩) = .error (tailErrs.get ⟨i, hi'⟩)
  | [], errs, att, _ => ⟨[], by simp [priorityLoop]⟩
  | d :: rest, errs, att, hall => by
    obtain ⟨e, he⟩ := hall d (List.mem_cons_self d rest)
    obtain ⟨tailErrs, h1, h2, h3⟩ :=
      priorityLoop_all_fail resolver rest (errs ++ [e]) (att ++ [d])
        (fun d' hd' => hall d' (List.mem_cons_of_mem d hd'))
    refine ⟨e :: tailErrs, ?_, by simpa using h2, ?_⟩
    · simp only [priorityLoop, he, h1]
      simp
    · intro i hi
      match i with
      | 0 => simpa using he
      | i + 1 =>
        simpa using h3 i (Nat.lt_of_succ_lt_succ hi)

/-- C7: with several configured distributions, package resolution tries each
in order; the first success is returned and the distributions after it are
never attempted (the attempted list is exactly the prefix up to the
success); when every distribution fails, the aggregated error retains one
failure per attempted distribution, in order — every per-distribution error,
not only the last. -/
theorem priority_first_success_and_aggregation (resolver : Resolver)
    (ds : List DistName) (hne : ds ≠ []) :
    (∀ i (hi : i < ds.length) r,
      (∀ j (hj : j < i), ∃ e, resolver (ds.get ⟨j, Nat.lt_trans hj hi⟩) = .error e) →
      resolver (ds.get ⟨i, hi⟩) = .ok r →
      getLatestPackageInfoUsingPriority resolver ds = .ok (.ok r, ds.take (i + 1))) ∧
    ((∀ d ∈ ds, ∃ e, resolver d = .error e) →
      ∃ errs,
        getLatestPackageInfoUsingPriority resolver ds = .ok (.error errs, ds) ∧
        errs.length = ds.length ∧
        ∀ i (hi : i < ds.length) (hi' : i < errs.length),
          resolver (ds.get ⟨i, hi⟩) = .error (errs.get ⟨i, hi'⟩)) := by
  match ds with
  | [] => exact absurd rfl hne
  | d0 :: rest =>
    constructor
    · intro i hi r hprev hr
      match i with
      | 0 =>
        simp only [List.get] at hr
        simp [getLatestPackageInfoUsingPriority, hr]
      | i + 1 =>
        obtain ⟨e, he⟩ := hprev 0 (Nat.succ_pos i)
        simp only [List.get] at he
        simp only [getLatestPackageInfoUsingPriority, he]
        rw [priorityLoop_success resolver rest [e] [d0] i
          (Nat.lt_of_succ_lt_succ hi)
          (fun j hj => hprev (j + 1) (Nat.succ_lt_succ hj)) r hr]
        simp [List.take_succ_cons]
    · intro hall
      obtain ⟨e, he⟩ := hall d0 (List.mem_cons_self d0 rest)
      obtain ⟨tailErrs, h1, h2, h3⟩ :=
        priorityLoop_all_fail resolver rest [e] [d0]
          (fun d' hd' => hall d' (List.mem_cons_of_mem d0 hd'))
      refine ⟨e :: tailErrs, ?_, by simpa using h2, ?_⟩
      · simp only [getLatestPackageInfoUsingPriority, he, h1]
        simp
      · intro i hi
        match i with
        | 0 => simpa using he
        | i + 1 => simpa using h3 i (Nat.lt_of_succ_lt_succ hi)

/-- Witness for `priority_first_success_and_aggregation`: with distributions
`[A, B]` where `A` fails and `B` succeeds, the priority search returns `B`'s
package having attempted both. -/
theorem priority_first_success_and_aggregation_witness :
    getLatestPackageInfoUsingPriority sampleResolver [['A'], ['B']] =
      .ok (.ok samplePkg, List.take 2 [['A'], ['B']]) :=
  (priority_first_success_and_aggregation sampleResolver [['A'], ['B']]
      (by decide)).1 1 (by decide) samplePkg
    (fun j hj => by
      interval_cases j
      exact ⟨.api, by rfl⟩)
    (by rfl)

/-! ## Store and state helper lemmas -/

theorem dlTempDrop_store (o : InstallOracles) (fs : JdkFs) :
    (dlTempDrop o fs).store = fs.store := by
  unfold dlTempDrop
  split <;> rfl

theorem cleanupUnpack_store (o : InstallOracles) (fs : JdkFs) :
    (cleanupUnpack o fs).store = fs.store := by
  unfold cleanupUnpack
  split <;> rfl

theorem lookupStore_upsert_self (name : List Char) (d : KeyDir)
    (st : List (List Char × KeyDir)) :
    lookupStore name (upsertStore name d st) = some d := by
  unfold lookupStore upsertStore
  rw [List.find?_append]
  have herase : (eraseStore name st).find? (fun e => e.1 == name) = Option.none := by
    rw [List.find?_eq_none]
    intro e he
    have := List.of_mem_filter he
    simp only [Bool.not_eq_true', beq_eq_false_iff_ne, ne_eq] at this
    simp [this]
  simp [herase]

/-! ## C2: archive extraction never escapes the extraction directory -/

/-- C4 (counterexample): the claim says that after a failed package
resolution no new directory or file for the key exists. Starting from an
empty filesystem, a resolution failure leaves the freshly created empty
install directory for the key on disk. -/
theorem download_resolution_failure_dir_counterexample :
    lookupStore (jdkDirName key9) emptyFs.store = Option.none ∧
    (downloadJdk resolveFailOracles [['B']] key9 emptyFs).2 = .error .err ∧
    lookupStore (jdkDirName key9)
        (downloadJdk resolveFailOracles [['B']] key9 emptyFs).1.store =
      some emptyKeyDir :=
  ⟨rfl, rfl, rfl⟩

/-- C4 (amended): when package resolution fails, `download_jdk` aborts and
the only filesystem change is step 1's removal of any pre-existing directory
for the key and creation of a fresh empty directory in its place; that empty
directory carries no marker (so the key is still not reported installed) and
nothing else changes. -/
theorem download_resolution_failure_leaves_only_empty_dir
    (o : InstallOracles) (ds : List DistName) (key : VersionKey) (fs : JdkFs)
    (errs : List FoojayDiscoApiError) (att : List DistName)
    (h : getLatestPackageInfoUsingPriority o.resolver ds =
      .ok (.error errs, att)) :
    downloadJdk o ds key fs =
      ({ fs with store := upsertStore (jdkDirName key) emptyKeyDir fs.store },
        .error .err) := by
  unfold downloadJdk
  rw [h]
  rfl

/-- Witness for `download_resolution_failure_leaves_only_empty_dir`. -/
theorem download_resolution_failure_leaves_only_empty_dir_witness :
    downloadJdk resolveFailOracles [['B']] key9 emptyFs =
      ({ emptyFs with store := upsertStore (jdkDirName key9) emptyKeyDir emptyFs.store },
        .error .err) :=
  download_resolution_failure_leaves_only_empty_dir resolveFailOracles [['B']]
    key9 emptyFs [.api] [['B']] rfl

/-- C5 (counterexample): the claim says that when the per-context symlink
resolves to the removed key's directory it is cleared before the directory
is deleted. Removing JDK `9` while the symlink points at its directory
deletes the directory, reports success, and leaves the symlink entirely
untouched — still pointing at the now-deleted directory. -/
theorem remove_symlink_not_cleared_counterexample :
    removeJdkRun sampleOracles [['B']] key9 fsLinkedAt9 =
      ((⟨[], Option.none, Option.none, some ['9']⟩, .ok ()), false) ∧
    fsLinkedAt9.ctxLink = some (jdkDirName key9) :=
  ⟨rfl, rfl⟩

/-- C5 (amended): `remove(key)` deletes the install directory of `key`
(first installing it when it is not listed as installed), but never touches
the per-context symlink: whatever the symlink held before the removal —
including a binding that resolves to exactly the removed directory — it
still holds afterwards, left dangling. -/
theorem remove_deletes_dir_keeps_symlink (o : InstallOracles)
    (ds : List DistName) (key : VersionKey) (fs : JdkFs)
    (ks : List VersionKey) (d : KeyDir)
    (hks : getInstalledJdks fs = .ok ks) (hmem : key ∈ ks)
    (hdir : lookupStore (jdkDirName key) fs.store = some d) :
    removeJdkRun o ds key fs =
      (({ fs with store := eraseStore (jdkDirName key) fs.store }, .ok ()), false) ∧
    ({ fs with store := eraseStore (jdkDirName key) fs.store } : JdkFs).ctxLink
      = fs.ctxLink := by
  refine ⟨?_, rfl⟩
  unfold removeJdkRun getJdkPath
  rw [hks]
  simp only [if_pos hmem]
  rw [hdir]

/-- Witness for `remove_deletes_dir_keeps_symlink` at `fsLinkedAt9`. -/
theorem remove_deletes_dir_keeps_symlink_witness :
    removeJdkRun sampleOracles [['B']] key9 fsLinkedAt9 =
      (({ fsLinkedAt9 with
          store := eraseStore (jdkDirName key9) fsLinkedAt9.store }, .ok ()),
        false) :=
  (remove_deletes_dir_keeps_symlink sampleOracles [['B']] key9 fsLinkedAt9
    [key9] ⟨some [], some ['9'], false⟩ rfl (by decide) rfl).1

/-! ## C9: legacy marker counts as installed, but yields no version -/

theorem installedLoop_mem (st : List (List Char × KeyDir)) :
    ∀ (ks : List VersionKey), installedLoop st = .ok ks →
      ∀ (name : List Char) (d : KeyDir), (name, d) ∈ st →
        ∀ (k : VersionKey), VersionKey.fromStr name = .ok k →
          (d.marker.isSome || d.legacy) = true → k ∈ ks := by
  induction st with
  | nil =>
    intro ks h name d hmem
    cases hmem
  | cons e rest ih =>
    intro ks h name d hmem k hparse hmark
    rcases List.mem_cons.mp hmem with heq | hmem'
    · cases heq
      unfold installedLoop at h
      rw [hparse, hmark] at h
      simp only [if_true] at h
      cases hrest : installedLoop rest with
      | error e' => rw [hrest] at h; cases h
      | ok ks' =>
        rw [hrest] at h
        cases h
        exact List.mem_cons_self k ks'
    · unfold installedLoop at h
      split at h
      · cases h
      · exact ih ks h name d hmem' k hparse hmark
      · rename_i k' hp
        split at h
        · split at h
          · cases h
          · rename_i ks' hrest
            cases h
            exact List.mem_cons_of_mem k' (ih ks' hrest name d hmem' k hparse hmark)
        · exact ih ks h name d hmem' k hparse hmark

/-- C9: a store directory whose name parses as a valid key and which holds
only the legacy marker `.jdk_marker` (no versioned marker
`.jdk_marker_with_version`) is reported by `get_installed_jdks` as an
installed key, while `get_full_version` for that key returns `Ok(None)` —
success with no value, not an error. -/
theorem legacy_marker_installed_but_no_version (fs : JdkFs)
    (ks : List VersionKey) (key : VersionKey) (d : KeyDir)
    (hparse : VersionKey.fromStr (jdkDirName key) = .ok key)
    (hdir : lookupStore (jdkDirName key) fs.store = some d)
    (hleg : d.legacy = true) (hmark : d.marker = Option.none)
    (hok : getInstalledJdks fs = .ok ks) :
    key ∈ ks ∧ getFullVersion fs key = .ok Option.none := by
  have hfind := hdir
  unfold lookupStore at hfind
  cases hf : (fs.store.find? fun e => e.1 == jdkDirName key) with
  | none => rw [hf] at hfind; cases hfind
  | some p =>
    rw [hf] at hfind
    replace hfind : p.2 = d := by simpa using hfind
    have hpred := List.find?_some hf
    have hmem := List.mem_of_find?_eq_some hf
    have hname : p.1 = jdkDirName key := by
      simpa [beq_iff_eq] using hpred
    constructor
    · apply installedLoop_mem fs.store ks hok (jdkDirName key) d _ key hparse
      · rw [hmark, hleg]
        rfl
      · rw [← hname, ← hfind]
        simpa using hmem
    · unfold getFullVersion getFullVersionFromPath
      rw [hdir]
      simp [hmark]

/-- Witness for `legacy_marker_installed_but_no_version` at `fsLegacy9`. -/
theorem legacy_marker_installed_but_no_version_witness :
    key9 ∈ [key9] ∧ getFullVersion fsLegacy9 key9 = .ok Option.none :=
  legacy_marker_installed_but_no_version fsLegacy9 [key9] key9
    ⟨Option.none, Option.none, true⟩ rfl rfl rfl rfl rfl

/-! ## C1: checksum mismatch aborts before the commit point -/

theorem dlTempDrop_unpackTemp (o : InstallOracles) (fs : JdkFs) :
    (dlTempDrop o fs).unpackTemp = fs.unpackTemp := by
  unfold dlTempDrop
  split <;> rfl

theorem dlTempDrop_dlTemp_of_closeOk (o : InstallOracles) (fs : JdkFs)
    (h : o.dlCloseOk = true) : (dlTempDrop o fs).dlTemp = Option.none := by
  unfold dlTempDrop
  rw [if_pos h]

/-- C1: when the streamed download bytes do not hash to the candidate's
advertised checksum, the install fails before the commit point: the
function returns an error; the key's directory is still the fresh empty one
of step 1 — no unpacked tree was renamed into it and no marker file was
written; the unpack temp directory was never created (unchanged); and the
temporary download file is discarded (best-effort: whenever its deletion
succeeds the file is gone). -/
theorem checksum_mismatch_aborts_before_commit (o : InstallOracles)
    (ds : List DistName) (key : VersionKey) (fs : JdkFs)
    (listInfo : FoojayPackageListInfo) (info : FoojayPackageInfo)
    (att : List DistName) (bytes expected : List Nat)
    (hres : getLatestPackageInfoUsingPriority o.resolver ds =
      .ok (.ok (listInfo, info), att))
    (hget : o.httpGet info.directDownloadUri = .ok bytes)
    (hct : info.checksumType = .sha256)
    (hdec : checksumVerifierNew info.checksum 32 = .ok expected)
    (hmm : o.hash bytes ≠ expected) :
    downloadJdk o ds key fs =
      (dlTempDrop o { fs with
          store := upsertStore (jdkDirName key) emptyKeyDir fs.store,
          dlTemp := some bytes }, .error .err) ∧
    lookupStore (jdkDirName key) (downloadJdk o ds key fs).1.store =
      some emptyKeyDir ∧
    (downloadJdk o ds key fs).1.unpackTemp = fs.unpackTemp ∧
    (o.dlCloseOk = true → (downloadJdk o ds key fs).1.dlTemp = Option.none) := by
  have hb : (o.hash bytes == expected) = false := beq_eq_false_iff_ne.mpr hmm
  have hmain : downloadJdk o ds key fs =
      (dlTempDrop o { fs with
          store := upsertStore (jdkDirName key) emptyKeyDir fs.store,
          dlTemp := some bytes }, .error .err) := by
    unfold downloadJdk downloadJdkToFile
    simp only [hres, hget, hct, hdec, hb]
    rfl
  refine ⟨hmain, ?_, ?_, ?_⟩
  · rw [hmain, dlTempDrop_store]
    exact lookupStore_upsert_self _ _ _
  · rw [hmain, dlTempDrop_unpackTemp]
  · intro hcl
    rw [hmain, dlTempDrop_dlTemp_of_closeOk o _ hcl]

/-- Witness for `checksum_mismatch_aborts_before_commit`: a download whose
bytes hash to 32 one-bytes while the advertised checksum decodes to 32 zero
bytes fails, leaving only the empty key directory. -/
theorem checksum_mismatch_aborts_before_commit_witness :
    downloadJdk mismatchOracles [['B']] key9 emptyFs =
      (dlTempDrop mismatchOracles { emptyFs with
          store := upsertStore (jdkDirName key9) emptyKeyDir emptyFs.store,
          dlTemp := some [1, 2, 3] }, .error .err) :=
  (checksum_mismatch_aborts_before_commit mismatchOracles [['B']] key9 emptyFs
    ⟨.tarGz, ver9, true⟩ ⟨0, goodChecksum, .sha256⟩ [['B']] [1, 2, 3]
    (List.replicate 32 0) rfl rfl rfl rfl (by decide)).1

/-! ## C8: removing an absent key installs it first, then deletes -/

/-- A successful run of the whole install pipeline publishes the renamed
tree and the versioned marker under the key's directory. -/
theorem downloadJdk_success_store (o : InstallOracles) (ds : List DistName)
    (key : VersionKey) (fs : JdkFs) (listInfo : FoojayPackageListInfo)
    (info : FoojayPackageInfo) (att : List DistName)
    (bytes expected : List Nat) (entries : List EntryPath)
    (outcome : UnpackOutcome) (root : List (List Char))
    (hres : getLatestPackageInfoUsingPriority o.resolver ds =
      .ok (.ok (listInfo, info), att))
    (hget : o.httpGet info.directDownloadUri = .ok bytes)
    (hct : info.checksumType = .sha256)
    (hdec : checksumVerifierNew info.checksum 32 = .ok expected)
    (hmatch : o.hash bytes = expected)
    (hpe : o.parseEntries listInfo.archiveType bytes = .ok entries)
    (hun : unpackJdk listInfo.archiveType entries = .ok outcome)
    (hroot : determineJdkRoot o.osMac (outcome.writes.map entryRel) = .ok root) :
    (downloadJdk o ds key fs).2 = .ok () ∧
      lookupStore (jdkDirName key) (downloadJdk o ds key fs).1.store =
        some ⟨some ((outcome.writes.map entryRel).filterMap (stripRootPath root)),
          some listInfo.javaVersion.toChars, false⟩ := by
  have hb : (o.hash bytes == expected) = true := beq_iff_eq.mpr hmatch
  constructor
  · unfold downloadJdk downloadJdkToFile
    simp only [hres, hget, hct, hdec, hb, hpe, hun, hroot, if_true]
  · unfold downloadJdk downloadJdkToFile
    simp only [hres, hget, hct, hdec, hb, hpe, hun, hroot, if_true]
    rw [dlTempDrop_store]
    exact lookupStore_upsert_self _ _ _

/-- C8: for a key that is not currently listed as installed, the remove
command first downloads and installs the JDK (`get_jdk_path` installs on a
cache miss — the boolean trace records that `download_jdk` ran) and only
then deletes the resulting directory; removing an absent key therefore
triggers a network install and succeeds rather than failing with a
not-installed error. -/
theorem remove_absent_key_installs_then_deletes (o : InstallOracles)
    (ds : List DistName) (key : VersionKey) (fs : JdkFs)
    (ks : List VersionKey) (fs2 : JdkFs) (d : KeyDir)
    (hks : getInstalledJdks fs = .ok ks) (hnot : key ∉ ks)
    (hdl : downloadJdk o ds key fs = (fs2, .ok ()))
    (hlook : lookupStore (jdkDirName key) fs2.store = some d) :
    removeJdkRun o ds key fs =
      (({ fs2 with store := eraseStore (jdkDirName key) fs2.store }, .ok ()),
        true) := by
  unfold removeJdkRun getJdkPath
  rw [hks]
  simp only [if_neg hnot]
  rw [hdl]
  simp only [hlook]

/-- Witness for `remove_absent_key_installs_then_deletes`: removing key `9`
from an empty store first performs the full install, then deletes the
directory it just created. -/
theorem remove_absent_key_installs_then_deletes_witness :
    removeJdkRun sampleOracles [['B']] key9 emptyFs =
      (({ fsAfterInstall9 with
          store := eraseStore (jdkDirName key9) fsAfterInstall9.store },
        .ok ()), true) :=
  remove_absent_key_installs_then_deletes sampleOracles [['B']] key9 emptyFs
    [] fsAfterInstall9 installed9Dir rfl (by decide) rfl rfl

/-- Witness for `downloadJdk_success_store`: the full pipeline succeeds on
`sampleOracles` and publishes tree and marker. -/
theorem downloadJdk_success_store_witness :
    (downloadJdk sampleOracles [['B']] key9 emptyFs).2 = .ok () ∧
      lookupStore (jdkDirName key9)
          (downloadJdk sampleOracles [['B']] key9 emptyFs).1.store =
        some ⟨some ((((unpackLoop tarUnpackIn sampleEntries).writes).map
              entryRel).filterMap (stripRootPath ["jdk".toList])),
          some ver9.toChars, false⟩ :=
  downloadJdk_success_store sampleOracles [['B']] key9 emptyFs
    ⟨.tarGz, ver9, true⟩ ⟨0, goodChecksum, .sha256⟩ [['B']] [1, 2, 3]
    (List.replicate 32 0) sampleEntries (unpackLoop tarUnpackIn sampleEntries)
    ["jdk".toList] rfl rfl rfl rfl rfl rfl rfl rfl

theorem toChars_new_decomp (v : NewScheme) :
    v.toChars = natDec v.feature ++ dotJoin (newParts v) ++ newExtraChars v := by
  unfold NewScheme.toChars newParts newExtraChars dotJoin
  by_cases h1 : ((v.interim != 0) || ((v.update != 0) || ((v.patch != 0) || !v.trailing.isEmpty))) = true <;>
    by_cases h2 : ((v.update != 0) || ((v.patch != 0) || !v.trailing.isEmpty)) = true <;>
      by_cases h3 : ((v.patch != 0) || !v.trailing.isEmpty) = true <;>
        simp [h1, h2, h3, List.map_map, Function.comp,
          apply_ite (List.map fun p : List Char => '.' :: p),
          apply_ite List.flatten] <;>
        exact congrArg List.flatten (List.map_congr_left fun t _ => rfl)

theorem natDecAux_eq (fuel : Nat) :
    ∀ n, n ≤ fuel → natDecAux fuel n = (Nat.digits 10 n).reverse.map digitChar := by
  induction fuel with
  | zero =>
    intro n hn
    interval_cases n
    simp [natDecAux]
  | succ f ih =>
    intro n hn
    by_cases hz : n = 0
    · subst hz
      simp [natDecAux]
    · have hdiv : n / 10 < n := Nat.div_lt_self (Nat.pos_of_ne_zero hz) (by norm_num)
      rw [natDecAux, if_neg hz, ih (n / 10) (by omega)]
      rw [Nat.digits_def' (by norm_num : 1 < 10) (Nat.pos_of_ne_zero hz)]
      simp

theorem natDec_eq_digits {n : Nat} (h : n ≠ 0) :
    natDec n = (Nat.digits 10 n).reverse.map digitChar := by
  rw [natDec, if_neg h, natDecAux_eq n n le_rfl]

theorem digitChar_toNat {d : Nat} (h : d < 10) : (digitChar d).toNat = 48 + d := by
  interval_cases d <;> decide

theorem digitChar_isDigit {d : Nat} (h : d < 10) :
    isAsciiDigit (digitChar d) = true := by
  interval_cases d <;> decide

theorem natDec_all_digits (n : Nat) : (natDec n).all isAsciiDigit = true := by
  by_cases h : n = 0
  · subst h; decide
  · rw [natDec_eq_digits h, List.all_eq_true]
    intro c hc
    rw [List.mem_map] at hc
    obtain ⟨d, hd, rfl⟩ := hc
    rw [List.mem_reverse] at hd
    exact digitChar_isDigit (Nat.digits_lt_base (by norm_num) hd)

theorem natDec_ne_nil (n : Nat) : natDec n ≠ [] := by
  by_cases h : n = 0
  · subst h; decide
  · rw [natDec_eq_digits h]
    simp [Nat.digits_ne_nil_iff_ne_zero, h]

theorem natDec_head_ne_zero {n : Nat} (h : n ≠ 0) :
    (natDec n).head? ≠ some '0' := by
  rw [natDec_eq_digits h]
  have hne : Nat.digits 10 n ≠ [] := Nat.digits_ne_nil_iff_ne_zero.mpr h
  rw [List.head?_map, List.head?_reverse, List.getLast?_eq_getLast _ hne]
  have hlast : (Nat.digits 10 n).getLast hne ≠ 0 := Nat.getLast_digit_ne_zero 10 h
  have hlt : (Nat.digits 10 n).getLast hne < 10 :=
    Nat.digits_lt_base (by norm_num) (List.getLast_mem hne)
  intro hh
  have htn := congrArg Char.toNat (Option.some.inj hh)
  rw [digitChar_toNat hlt] at htn
  have h0 : ('0' : Char).toNat = 48 := rfl
  rw [h0] at htn
  omega

theorem foldDigits_append_single (xs : List Char) (c : Char) (acc : Nat) :
    foldDigits (xs ++ [c]) acc = foldDigits xs acc * 10 + (c.toNat - 48) := by
  simp [foldDigits, List.foldl_append]

theorem foldDigits_digits (L : List Nat) (hL : ∀ d ∈ L, d < 10) (acc : Nat) :
    foldDigits (L.reverse.map digitChar) acc =
      acc * 10 ^ L.length + Nat.ofDigits 10 L := by
  induction L generalizing acc with
  | nil => simp [foldDigits]
  | cons d L ih =>
    rw [List.reverse_cons, List.map_append]
    simp only [List.map_cons, List.map_nil]
    rw [foldDigits_append_single,
      ih (fun x hx => hL x (List.mem_cons_of_mem d hx)),
      digitChar_toNat (hL d (List.mem_cons_self d L)), Nat.ofDigits_cons]
    have : 48 + d - 48 = d := by omega
    rw [this]
    simp only [List.length_cons, pow_succ]
    ring

theorem foldDigits_natDec (n : Nat) : foldDigits (natDec n) 0 = n := by
  by_cases h : n = 0
  · subst h; decide
  · rw [natDec_eq_digits h,
      foldDigits_digits _ (fun d hd => Nat.digits_lt_base (by norm_num) hd) 0]
    simp [Nat.ofDigits_digits]

theorem natDec_head_ne_plus (n : Nat) :
    ∀ rest, natDec n ≠ '+' :: rest := by
  intro rest hh
  have hall := natDec_all_digits n
  rw [hh] at hall
  simp [isAsciiDigit] at hall

theorem rustParseU32_natDec {n : Nat} (h : n < 2 ^ 32) :
    rustParseU32 (natDec n) = some n := by
  unfold rustParseU32
  have hne := natDec_ne_nil n
  have hall := natDec_all_digits n
  split
  · rename_i rest heq
    exact absurd heq (natDec_head_ne_plus n rest)
  · rw [if_neg (by simpa [List.isEmpty_iff] using hne), if_pos hall,
      foldDigits_natDec, if_pos h]

theorem parseNumericPart_natDec {n : Nat} (h : n < 2 ^ 32) :
    parseNumericPart (natDec n) = .ok n := by
  unfold parseNumericPart
  rw [rustParseU32_natDec h]

theorem natDec_eq_one_iff (n : Nat) (h : n < 2 ^ 32) :
    natDec n = ['1'] ↔ n = 1 := by
  constructor
  · intro hh
    have h1 := rustParseU32_natDec h
    rw [hh] at h1
    have h2 : rustParseU32 ['1'] = some 1 := by decide
    rw [h1] at h2
    exact Option.some.inj h2
  · rintro rfl
    decide

theorem mem_natDec_isDigit {n : Nat} {c : Char} (h : c ∈ natDec n) :
    isAsciiDigit c = true := by
  have hall := natDec_all_digits n
  rw [List.all_eq_true] at hall
  exact hall c h

theorem digit_not_sep {c : Char} (h : isAsciiDigit c = true) :
    isSepChar c = false := by
  by_contra hne
  have hs : isSepChar c = true := by
    cases hq : isSepChar c
    · exact absurd hq hne
    · rfl
  rw [isSepChar] at hs
  simp only [Bool.or_eq_true, decide_eq_true_eq] at hs
  rcases hs with (rfl | rfl) | rfl <;> exact absurd h (by decide)

theorem digit_ne_dot {c : Char} (h : isAsciiDigit c = true) : c ≠ '.' := by
  rintro rfl
  exact absurd h (by decide)

theorem digit_ne_char {c : Char} (h : isAsciiDigit c = true) (d : Char)
    (hd : isAsciiDigit d = false) : c ≠ d := by
  rintro rfl
  rw [h] at hd
  cases hd

theorem splitAtFirstSep_no_sep (a : List Char)
    (ha : ∀ c ∈ a, isSepChar c = false) :
    splitAtFirstSep a = (a, Option.none) := by
  induction a with
  | nil => rfl
  | cons c rest ih =>
    rw [splitAtFirstSep, if_neg (by simp [ha c (List.mem_cons_self c rest)]),
      ih (fun x hx => ha x (List.mem_cons_of_mem c hx))]

theorem splitAtFirstSep_append (a : List Char) (c : Char) (b : List Char)
    (ha : ∀ x ∈ a, isSepChar x = false) (hc : isSepChar c = true) :
    splitAtFirstSep (a ++ c :: b) = (a, some (c :: b)) := by
  induction a with
  | nil => simp [splitAtFirstSep, hc]
  | cons x rest ih =>
    rw [List.cons_append, splitAtFirstSep,
      if_neg (by simp [ha x (List.mem_cons_self x rest)]),
      ih (fun y hy => ha y (List.mem_cons_of_mem x hy))]

theorem splitDot_no_dot (a : List Char) (ha : ∀ c ∈ a, c ≠ '.') :
    splitDot a = [a] := by
  induction a with
  | nil => rfl
  | cons c rest ih =>
    rw [splitDot, if_neg (ha c (List.mem_cons_self c rest)),
      ih (fun x hx => ha x (List.mem_cons_of_mem c hx))]

theorem splitDot_append (a : List Char) (rest : List Char)
    (ha : ∀ c ∈ a, c ≠ '.') :
    splitDot (a ++ '.' :: rest) = a :: splitDot rest := by
  induction a with
  | nil => simp [splitDot]
  | cons x xs ih =>
    rw [List.cons_append, splitDot, if_neg (ha x (List.mem_cons_self x xs)),
      ih (fun y hy => ha y (List.mem_cons_of_mem x hy))]

theorem splitDot_dotJoin (a : List Char) (ps : List (List Char))
    (ha : ∀ c ∈ a, c ≠ '.')
    (hps : ∀ p ∈ ps, ∀ c ∈ p, c ≠ '.') :
    splitDot (a ++ dotJoin ps) = a :: ps := by
  induction ps generalizing a with
  | nil =>
    simp only [dotJoin, List.map_nil, List.flatten_nil, List.append_nil]
    rw [splitDot_no_dot a ha]
  | cons p ps ih =>
    have : a ++ dotJoin (p :: ps) = a ++ '.' :: (p ++ dotJoin ps) := by
      simp [dotJoin]
    rw [this, splitDot_append a _ ha,
      ih p (hps p (List.mem_cons_self p ps))
        (fun q hq => hps q (List.mem_cons_of_mem p hq))]

theorem splitOnce_not_mem (c : Char) (a : List Char) (h : c ∉ a) :
    splitOnce c a = Option.none := by
  induction a with
  | nil => rfl
  | cons x rest ih =>
    rw [splitOnce, if_neg (by rintro rfl; exact h (List.mem_cons_self x rest)),
      ih (fun hx => h (List.mem_cons_of_mem x hx))]
    rfl

theorem splitOnce_append (c : Char) (a b : List Char) (h : c ∉ a) :
    splitOnce c (a ++ c :: b) = some (a, b) := by
  induction a with
  | nil => simp [splitOnce]
  | cons x rest ih =>
    rw [List.cons_append, splitOnce,
      if_neg (by rintro rfl; exact h (List.mem_cons_self x rest)),
      ih (fun hx => h (List.mem_cons_of_mem x hx))]
    rfl

theorem splitOptional_not_mem (c : Char) (a : List Char) (h : c ∉ a) :
    splitOptional c a = (a, Option.none) := by
  rw [splitOptional, splitOnce_not_mem c a h]

theorem splitOptional_append (c : Char) (a b : List Char) (h : c ∉ a) :
    splitOptional c (a ++ c :: b) = (a, some b) := by
  rw [splitOptional, splitOnce_append c a b h]

theorem not_mem_of_all_digits {s : List Char} {d : Char}
    (hs : s.all isAsciiDigit = true) (hd : isAsciiDigit d = false) : d ∉ s := by
  intro hmem
  rw [List.all_eq_true] at hs
  rw [hs d hmem] at hd
  cases hd

theorem oldVnum_no_sep (minor patch : Nat) :
    ∀ c ∈ '1' :: '.' :: (natDec minor ++ '.' :: natDec patch),
      isSepChar c = false := by
  intro c hc
  simp only [List.mem_cons, List.mem_append] at hc
  rcases hc with rfl | rfl | (hm | rfl | hp)
  · decide
  · decide
  · exact digit_not_sep (mem_natDec_isDigit hm)
  · decide
  · exact digit_not_sep (mem_natDec_isDigit hp)

theorem oldVnum_split (minor patch : Nat) :
    splitDot ('1' :: '.' :: (natDec minor ++ '.' :: natDec patch)) =
      [['1'], natDec minor, natDec patch] := by
  have h1 : ('1' : Char) :: '.' :: (natDec minor ++ '.' :: natDec patch) =
      ['1'] ++ '.' :: (natDec minor ++ '.' :: natDec patch) := rfl
  rw [h1, splitDot_append ['1'] _ (by intro c hc; simp at hc; subst hc; decide),
    splitDot_append (natDec minor) _
      (fun c hc => digit_ne_dot (mem_natDec_isDigit hc)),
    splitDot_no_dot (natDec patch)
      (fun c hc => digit_ne_dot (mem_natDec_isDigit hc))]

theorem toChars_old_decomp (v : OldScheme) :
    (JavaVersion.old v).toChars =
      ('1' :: '.' :: (natDec v.minor ++ '.' :: natDec v.patch)) ++
        ((if v.update ≠ 0 then '_' :: natDec v.update else []) ++
          (match v.build with
            | some b => ['-', 'b'] ++ natDec2 b
            | Option.none => [])) := by
  show OldScheme.toChars v = _
  unfold OldScheme.toChars
  simp [List.append_assoc]

theorem parseOldBuildToken_natDec2 {b : Nat} (h : b < 2 ^ 32) :
    parseOldBuildToken ('b' :: natDec2 b) = .ok b := by
  by_cases hb : b < 10
  · rw [natDec2, if_pos hb]
    unfold parseOldBuildToken
    rw [if_pos (by rfl)]
    exact parseNumericPart_natDec h
  · have hb0 : b ≠ 0 := by omega
    obtain ⟨c, cs, hcc⟩ : ∃ c cs, natDec b = c :: cs := by
      cases hnd : natDec b with
      | nil => exact absurd hnd (natDec_ne_nil b)
      | cons c cs => exact ⟨c, cs, rfl⟩
    have hc0 : c ≠ '0' := by
      have hhd := natDec_head_ne_zero hb0
      rw [hcc] at hhd
      simpa using hhd
    rw [natDec2, if_neg hb, hcc]
    unfold parseOldBuildToken
    rw [if_pos (by rfl)]
    split
    · rename_i rest heq
      injection heq with h1 h2
      injection h2 with h21 h22
      exact absurd h21 hc0
    · rw [List.drop_one, List.tail_cons, ← hcc]
      exact parseNumericPart_natDec h

theorem parseOldSchemeExtra_dashBuild {b : Nat} (hb : b < 2 ^ 32) :
    parseOldSchemeExtra (some ('-' :: 'b' :: natDec2 b)) = .ok (0, some b) := by
  have h1 : parseOldSchemeExtra (some ('-' :: 'b' :: natDec2 b)) =
      (match parseOldBuildToken ('b' :: natDec2 b) with
       | .error er => .error er
       | .ok bb => .ok (0, some bb)) := rfl
  rw [h1, parseOldBuildToken_natDec2 hb]

theorem parseOldSchemeExtra_underUpdate {u : Nat} (hu : u < 2 ^ 32) :
    parseOldSchemeExtra (some ('_' :: natDec u)) = .ok (u, Option.none) := by
  have h1 : parseOldSchemeExtra (some ('_' :: natDec u)) =
      (match parseNumericPart (splitOptional '-' (natDec u)).1 with
       | .error er => .error er
       | .ok uu =>
         match (splitOptional '-' (natDec u)).2 with
         | Option.none => .ok (uu, Option.none)
         | some s =>
           match parseOldBuildToken s with
           | .error er => .error er
           | .ok bb => .ok (uu, some bb)) := rfl
  rw [h1]
  simp only [splitOptional_not_mem '-' (natDec u)
    (not_mem_of_all_digits (natDec_all_digits u) (by decide)),
    parseNumericPart_natDec hu]

theorem parseOldSchemeExtra_underUpdateBuild {u b : Nat} (hu : u < 2 ^ 32)
    (hb : b < 2 ^ 32) :
    parseOldSchemeExtra (some ('_' :: (natDec u ++ '-' :: 'b' :: natDec2 b))) =
      .ok (u, some b) := by
  have h1 : parseOldSchemeExtra
        (some ('_' :: (natDec u ++ '-' :: 'b' :: natDec2 b))) =
      (match parseNumericPart
          (splitOptional '-' (natDec u ++ '-' :: 'b' :: natDec2 b)).1 with
       | .error er => .error er
       | .ok uu =>
         match (splitOptional '-' (natDec u ++ '-' :: 'b' :: natDec2 b)).2 with
         | Option.none => .ok (uu, Option.none)
         | some s =>
           match parseOldBuildToken s with
           | .error er => .error er
           | .ok bb => .ok (uu, some bb)) := rfl
  rw [h1]
  simp only [splitOptional_append '-' (natDec u) _
    (not_mem_of_all_digits (natDec_all_digits u) (by decide)),
    parseNumericPart_natDec hu, parseOldBuildToken_natDec2 hb]

theorem roundtrip_old (v : OldScheme) (h : CanonOld v = true) :
    JavaVersion.fromStr (JavaVersion.old v).toChars = .ok (.old v) := by
  obtain ⟨minor, patch, update, build⟩ := v
  unfold CanonOld at h
  simp only [Bool.and_eq_true, decide_eq_true_eq] at h
  obtain ⟨⟨⟨hm, hp⟩, hu⟩, hb⟩ := h
  rw [toChars_old_decomp]
  simp only
  by_cases hu0 : update = 0 <;> rcases build with _ | b
  · -- no update, no build
    subst hu0
    simp only [ne_eq, not_true_eq_false, if_false, List.append_nil]
    unfold JavaVersion.fromStr
    rw [splitAtFirstSep_no_sep _ (oldVnum_no_sep minor patch)]
    simp only [oldVnum_split]
    rw [if_pos trivial]
    simp only [oldScheme, parseNumericPart_natDec hm, parseNumericPart_natDec hp]
    rfl
  · -- no update, build present
    subst hu0
    simp only [ne_eq, not_true_eq_false, if_false, List.nil_append]
    unfold JavaVersion.fromStr
    rw [show ((['-', 'b'] ++ natDec2 b : List Char)) = '-' :: ('b' :: natDec2 b) from rfl]
    rw [splitAtFirstSep_append _ '-' _ (oldVnum_no_sep minor patch) (by decide)]
    simp only [oldVnum_split]
    rw [if_pos trivial]
    simp only [oldScheme, parseNumericPart_natDec hm, parseNumericPart_natDec hp,
      parseOldSchemeExtra_dashBuild (by simpa [CanonBuild] using hb)]
    rfl
  · -- update, no build
    simp only [ne_eq, hu0, not_false_eq_true, if_true, List.append_nil]
    unfold JavaVersion.fromStr
    rw [splitAtFirstSep_append _ '_' _ (oldVnum_no_sep minor patch) (by decide)]
    simp only [oldVnum_split]
    rw [if_pos trivial]
    simp only [oldScheme, parseNumericPart_natDec hm, parseNumericPart_natDec hp,
      parseOldSchemeExtra_underUpdate hu]
    rfl
  · -- update and build
    simp only [ne_eq, hu0, not_false_eq_true, if_true]
    unfold JavaVersion.fromStr
    rw [show ('_' :: natDec update ++ (['-', 'b'] ++ natDec2 b) : List Char) =
      '_' :: (natDec update ++ '-' :: 'b' :: natDec2 b) from rfl]
    rw [splitAtFirstSep_append _ '_' _ (oldVnum_no_sep minor patch) (by decide)]
    simp only [oldVnum_split]
    rw [if_pos trivial]
    simp only [oldScheme, parseNumericPart_natDec hm, parseNumericPart_natDec hp,
      parseOldSchemeExtra_underUpdateBuild hu (by simpa [CanonBuild] using hb)]
    rfl

theorem preReleaseFromStr_natDec {n : Nat} (h : n < 2 ^ 32) :
    PreRelease.fromStr (natDec n) = .ok (.numeric n) := by
  unfold PreRelease.fromStr
  rw [if_pos ?cond, rustParseU32_natDec h]
  case cond =>
    rw [natDec_all_digits n, Bool.true_and]
    by_cases hz : n = 0
    · subst hz
      decide
    · have hh := natDec_head_ne_zero hz
      have : startsWithChar (natDec n) '0' = false := by
        unfold startsWithChar
        simpa using hh
      rw [this]
      simp

theorem preReleaseFromStr_other {tag : List Char}
    (hc : CanonPre (.other tag) = true) : PreRelease.fromStr tag = .ok (.other tag) := by
  unfold CanonPre at hc
  simp only [Bool.and_eq_true] at hc
  obtain ⟨⟨-, -⟩, hncond⟩ := hc
  rw [Bool.not_eq_true'] at hncond
  unfold PreRelease.fromStr
  rw [hncond]
  rfl

theorem canonPre_other_not_mem {tag : List Char}
    (hc : CanonPre (.other tag) = true) : '+' ∉ tag ∧ '-' ∉ tag := by
  unfold CanonPre at hc
  simp only [Bool.and_eq_true] at hc
  obtain ⟨⟨-, hall⟩, -⟩ := hc
  rw [List.all_eq_true] at hall
  constructor
  · intro hmem
    have := hall _ hmem
    simp at this
  · intro hmem
    have := hall _ hmem
    simp at this

theorem parseNewSchemeExtra_dash (rest : List Char) :
    parseNewSchemeExtra (some ('-' :: rest)) =
      (match PreRelease.fromStr (splitOptional '+' (splitOptional '-' rest).1).1 with
       | .error er => .error er
       | .ok pr =>
         match (splitOptional '+' (splitOptional '-' rest).1).2 with
         | Option.none => .ok (pr, Option.none, (splitOptional '-' rest).2)
         | some bs =>
           match parseNumericPart bs with
           | .error er => .error er
           | .ok b => .ok (pr, some b, (splitOptional '-' rest).2)) := rfl

theorem parseNewSchemeExtra_dash_spec (pre : PreRelease) (tag : List Char)
    (hfs : PreRelease.fromStr tag = .ok pre)
    (hplus : '+' ∉ tag) (hdash : '-' ∉ tag)
    (build : Option Nat) (hb : CanonBuild build = true)
    (opt : Option (List Char)) :
    parseNewSchemeExtra (some ('-' :: (tag ++
        ((match build with
          | some b => '+' :: natDec b
          | Option.none => []) ++
         (match opt with
          | some o => '-' :: o
          | Option.none => []))))) =
      .ok (pre, build, opt) := by
  rcases build with _ | b <;> rcases opt with _ | o
  · -- no build, no opt
    simp only [List.append_nil]
    rw [parseNewSchemeExtra_dash]
    rw [splitOptional_not_mem '-' tag hdash, splitOptional_not_mem '+' tag hplus]
    rw [hfs]
  · -- no build, opt
    simp only [List.nil_append]
    rw [parseNewSchemeExtra_dash]
    rw [splitOptional_append '-' tag o hdash, splitOptional_not_mem '+' tag hplus]
    rw [hfs]
  · -- build, no opt
    simp only [List.append_nil]
    rw [parseNewSchemeExtra_dash]
    have hd2 : '-' ∉ tag ++ '+' :: natDec b := by
      intro hmem
      rcases List.mem_append.mp hmem with hm | hm
      · exact hdash hm
      · rcases List.mem_cons.mp hm with heq | hm2
        · cases heq
        · have := mem_natDec_isDigit hm2
          exact absurd this (by decide)
    rw [splitOptional_not_mem '-' _ hd2, splitOptional_append '+' tag (natDec b) hplus]
    have hb' : b < 2 ^ 32 := by simpa [CanonBuild] using hb
    simp only [hfs, parseNumericPart_natDec hb']
  · -- build and opt
    rw [show (tag ++ (('+' :: natDec b) ++ '-' :: o) : List Char) =
      (tag ++ '+' :: natDec b) ++ '-' :: o from by simp]
    rw [parseNewSchemeExtra_dash]
    have hd2 : '-' ∉ tag ++ '+' :: natDec b := by
      intro hmem
      rcases List.mem_append.mp hmem with hm | hm
      · exact hdash hm
      · rcases List.mem_cons.mp hm with heq | hm2
        · cases heq
        · have := mem_natDec_isDigit hm2
          exact absurd this (by decide)
    rw [splitOptional_append '-' _ o hd2, splitOptional_append '+' tag (natDec b) hplus]
    have hb' : b < 2 ^ 32 := by simpa [CanonBuild] using hb
    simp only [hfs, parseNumericPart_natDec hb']

theorem rustParseU32_plus_natDec {b : Nat} (h : b < 2 ^ 32) :
    rustParseU32 ('+' :: natDec b) = some b := by
  have h1 : rustParseU32 ('+' :: natDec b) =
      (if (natDec b).isEmpty then Option.none
       else if (natDec b).all isAsciiDigit then
         (if foldDigits (natDec b) 0 < 2 ^ 32 then some (foldDigits (natDec b) 0)
          else Option.none)
       else Option.none) := rfl
  rw [h1, if_neg (by simpa [List.isEmpty_iff] using natDec_ne_nil b),
    if_pos (natDec_all_digits b), foldDigits_natDec, if_pos h]

theorem parseNumericPart_plus_natDec {b : Nat} (h : b < 2 ^ 32) :
    parseNumericPart ('+' :: natDec b) = .ok b := by
  unfold parseNumericPart
  rw [rustParseU32_plus_natDec h]

theorem parseNewSchemeExtra_plusdash (o : List Char) :
    parseNewSchemeExtra (some ('+' :: '-' :: o)) =
      .ok (.none, Option.none, some o) := rfl

theorem not_mem_dash_plus_natDec (b : Nat) : '-' ∉ '+' :: natDec b := by
  intro hmem
  rcases List.mem_cons.mp hmem with heq | hm
  · cases heq
  · have := mem_natDec_isDigit hm
    exact absurd this (by decide)

theorem parseNewSchemeExtra_plus_spec (b : Nat) (hb : b < 2 ^ 32)
    (opt : Option (List Char)) :
    parseNewSchemeExtra (some (('+' :: natDec b) ++
      (match opt with
       | some o => '-' :: o
       | Option.none => []))) = .ok (.none, some b, opt) := by
  obtain ⟨c, cs, hcc⟩ : ∃ c cs, natDec b = c :: cs := by
    cases hnd : natDec b with
    | nil => exact absurd hnd (natDec_ne_nil b)
    | cons c cs => exact ⟨c, cs, rfl⟩
  have hcd : isAsciiDigit c = true := by
    apply mem_natDec_isDigit (n := b)
    rw [hcc]
    exact List.mem_cons_self c cs
  rcases opt with _ | o
  · simp only [List.append_nil]
    rw [hcc]
    unfold parseNewSchemeExtra
    split
    · rename_i heq
      exact absurd heq (by simp)
    · rename_i e heq
      injection heq with he
      subst he
      split
      · rename_i rest heq2
        injection heq2 with h1 h2
        injection h2 with h21 h22
        rw [h21] at hcd
        exact absurd hcd (by decide)
      · rw [if_pos (by rfl)]
        rw [show ('+' :: c :: cs : List Char) = '+' :: natDec b from by rw [hcc]]
        rw [splitOptional_not_mem '-' _ (not_mem_dash_plus_natDec b)]
        simp only [parseNumericPart_plus_natDec hb]
  · rw [show (('+' :: natDec b) ++ '-' :: o : List Char) =
      '+' :: (natDec b ++ '-' :: o) from rfl]
    rw [hcc]
    rw [show ('+' :: ((c :: cs) ++ '-' :: o) : List Char) =
      '+' :: c :: (cs ++ '-' :: o) from rfl]
    unfold parseNewSchemeExtra
    split
    · rename_i heq
      exact absurd heq (by simp)
    · rename_i e heq
      injection heq with he
      subst he
      split
      · rename_i rest heq2
        injection heq2 with h1 h2
        injection h2 with h21 h22
        rw [h21] at hcd
        exact absurd hcd (by decide)
      · rw [if_pos (by rfl)]
        rw [show ('+' :: c :: (cs ++ '-' :: o) : List Char) =
          ('+' :: natDec b) ++ '-' :: o from by rw [hcc]; rfl]
        rw [splitOptional_append '-' _ o (not_mem_dash_plus_natDec b)]
        simp only [parseNumericPart_plus_natDec hb]

theorem mem_ite_singleton {α} {c : Prop} [Decidable c] {x p : α}
    (h : p ∈ (if c then [x] else [])) : p = x := by
  split at h
  · simpa using h
  · simp at h

theorem newParts_shape (v : NewScheme) {p : List Char} (hp : p ∈ newParts v) :
    ∃ n, p = natDec n := by
  unfold newParts at hp
  rcases List.mem_append.mp hp with h1 | h4
  · rcases List.mem_append.mp h1 with h2 | h3
    · rcases List.mem_append.mp h2 with h5 | h6
      · exact ⟨v.interim, mem_ite_singleton h5⟩
      · exact ⟨v.update, mem_ite_singleton h6⟩
    · exact ⟨v.patch, mem_ite_singleton h3⟩
  · obtain ⟨t, -, rfl⟩ := List.mem_map.mp h4
    exact ⟨t, rfl⟩

theorem newVnum_no_sep (v : NewScheme) :
    ∀ c ∈ natDec v.feature ++ dotJoin (newParts v), isSepChar c = false := by
  intro c hc
  rcases List.mem_append.mp hc with hf | hd
  · exact digit_not_sep (mem_natDec_isDigit hf)
  · unfold dotJoin at hd
    rw [List.mem_flatten] at hd
    obtain ⟨l, hl, hcl⟩ := hd
    obtain ⟨p, hp, rfl⟩ := List.mem_map.mp hl
    rcases List.mem_cons.mp hcl with rfl | hcp
    · decide
    · obtain ⟨n, rfl⟩ := newParts_shape v hp
      exact digit_not_sep (mem_natDec_isDigit hcp)

theorem newVnum_splitDot (v : NewScheme) :
    splitDot (natDec v.feature ++ dotJoin (newParts v)) =
      natDec v.feature :: newParts v := by
  apply splitDot_dotJoin
  · exact fun c hc => digit_ne_dot (mem_natDec_isDigit hc)
  · intro p hp c hc
    obtain ⟨n, rfl⟩ := newParts_shape v hp
    exact digit_ne_dot (mem_natDec_isDigit hc)

theorem natDec_eq_zero_iff (n : Nat) : natDec n = ['0'] ↔ n = 0 := by
  constructor
  · intro hh
    have h1 := foldDigits_natDec n
    rw [hh] at h1
    simpa using h1.symm
  · rintro rfl
    rfl

theorem startsWithChar_natDec_ne_zero {n : Nat} (h : n ≠ 0) :
    startsWithChar (natDec n) '0' = false := by
  unfold startsWithChar
  simpa using natDec_head_ne_zero h

theorem mapM_parseNumericPart_natDec (L : List Nat) (hL : ∀ t ∈ L, t < 2 ^ 32) :
    (L.map natDec).mapM parseNumericPart = .ok L := by
  induction L with
  | nil => rfl
  | cons t L ih =>
    rw [List.map_cons, List.mapM_cons, parseNumericPart_natDec (hL t (List.mem_cons_self t L)),
      ih (fun x hx => hL x (List.mem_cons_of_mem t hx))]
    rfl

theorem parseOptVnumPart_some (s : List Char) :
    parseOptVnumPart (some s) = parseNumericPart s := rfl

theorem parseOptVnumPart_none : parseOptVnumPart Option.none = .ok 0 := rfl

theorem getLast?_map_natDec :
    ∀ l : List Nat, (l.map natDec).getLast? = l.getLast?.map natDec
  | [] => rfl
  | [t] => rfl
  | t :: t2 :: rest => by
    rw [List.map_cons, List.map_cons, List.getLast?_cons_cons,
      ← List.map_cons, getLast?_map_natDec (t2 :: rest), List.getLast?_cons_cons]

theorem newScheme_newParts (v : NewScheme)
    (hf0 : v.feature ≠ 0) (hf32 : v.feature < 2 ^ 32)
    (hi : v.interim < 2 ^ 32) (hu : v.update < 2 ^ 32) (hp : v.patch < 2 ^ 32)
    (hta : ∀ t ∈ v.trailing, t < 2 ^ 32)
    (htl : ∀ t, v.trailing.getLast? = some t → t ≠ 0)
    (extra : Option (List Char))
    (hextra : parseNewSchemeExtra extra = .ok (v.preRelease, v.build, v.opt)) :
    newScheme (natDec v.feature) (newParts v) extra = .ok (.new v) := by
  obtain ⟨f, qi, qu, qp, tr, pre, bld, op⟩ := v
  simp only at hf0 hf32 hi hu hp hta htl hextra
  unfold newScheme
  rw [natDec_all_digits f]
  rw [startsWithChar_natDec_ne_zero hf0]
  simp only [Bool.not_true, Bool.false_eq_true, if_false, parseNumericPart_natDec hf32]
  by_cases htr : tr = []
  · subst htr
    by_cases hqp : qp = 0
    · subst hqp
      by_cases hqu : qu = 0
      · subst hqu
        by_cases hqi : qi = 0
        · subst hqi
          simp only [newParts]
          norm_num
          simp only [hextra]
          rfl
        · have h1 : ((qi != 0) || ((0 != 0) || ((0 != 0) || !(List.isEmpty ([] : List Nat)))) : Bool) = true := by
            simp [hqi]
          simp only [newParts, h1]
          norm_num
          rw [if_neg (fun hcon => hqi ((natDec_eq_zero_iff qi).mp hcon))]
          simp only [List.head?_cons, parseOptVnumPart_some, parseOptVnumPart_none,
            parseNumericPart_natDec hi, hextra]
          rfl
      · have h2 : ((qu != 0) || ((0 != 0) || !(List.isEmpty ([] : List Nat))) : Bool) = true := by
          simp [hqu]
        have h1 : ((qi != 0) || ((qu != 0) || ((0 != 0) || !(List.isEmpty ([] : List Nat)))) : Bool) = true := by
          simp [hqu]
        simp only [newParts, h1, h2]
        norm_num
        rw [if_neg (fun hcon => hqu ((natDec_eq_zero_iff qu).mp hcon))]
        simp only [List.head?_cons, List.getElem?_cons_succ, List.getElem?_cons_zero,
          parseOptVnumPart_some, parseOptVnumPart_none,
          parseNumericPart_natDec hi, parseNumericPart_natDec hu, hextra]
        rfl
    · have h3 : ((qp != 0) || !(List.isEmpty ([] : List Nat)) : Bool) = true := by
        simp [hqp]
      have h2 : ((qu != 0) || ((qp != 0) || !(List.isEmpty ([] : List Nat))) : Bool) = true := by
        simp [hqp]
      have h1 : ((qi != 0) || ((qu != 0) || ((qp != 0) || !(List.isEmpty ([] : List Nat)))) : Bool) = true := by
        simp [hqp]
      simp only [newParts, h1, h2, h3]
      norm_num
      rw [if_neg (fun hcon => hqp ((natDec_eq_zero_iff qp).mp hcon))]
      simp only [List.head?_cons, List.getElem?_cons_succ, List.getElem?_cons_zero,
        parseOptVnumPart_some, parseOptVnumPart_none,
        parseNumericPart_natDec hi, parseNumericPart_natDec hu,
        parseNumericPart_natDec hp, hextra]
      rfl
  · have h3 : ((qp != 0) || !tr.isEmpty : Bool) = true := by
      simp [htr]
    have h2 : ((qu != 0) || ((qp != 0) || !tr.isEmpty) : Bool) = true := by
      simp [htr]
    have h1 : ((qi != 0) || ((qu != 0) || ((qp != 0) || !tr.isEmpty)) : Bool) = true := by
      simp [htr]
    simp only [newParts, h1, h2, h3, Bool.or_true, if_true, List.cons_append,
      List.nil_append]
    obtain ⟨tl, htl'⟩ : ∃ tl, tr.getLast? = some tl :=
      ⟨_, List.getLast?_eq_getLast_of_ne_nil htr⟩
    have hlast : (natDec qi :: natDec qu :: natDec qp :: tr.map natDec).getLast?
        = some (natDec tl) := by
      rw [show (natDec qi :: natDec qu :: natDec qp :: tr.map natDec : List (List Char)) =
        [natDec qi, natDec qu, natDec qp] ++ tr.map natDec from rfl]
      rw [List.getLast?_append_of_ne_nil _ (by simpa using htr)]
      rw [getLast?_map_natDec, htl']
      rfl
    rw [hlast]
    rw [if_neg (by
      intro hcon
      exact htl tl htl' ((natDec_eq_zero_iff tl).mp (Option.some.inj hcon)))]
    simp only [List.head?_cons, parseOptVnumPart_some,
      List.getElem?_cons_succ, List.getElem?_cons_zero,
      List.drop_succ_cons, List.drop_zero,
      parseNumericPart_natDec hi, parseNumericPart_natDec hu,
      parseNumericPart_natDec hp,
      mapM_parseNumericPart_natDec tr hta, hextra]

theorem newExtra_parsed (v : NewScheme) (hpre : CanonPre v.preRelease = true)
    (hb : CanonBuild v.build = true) :
    (newExtraChars v = [] ∧
      parseNewSchemeExtra Option.none = .ok (v.preRelease, v.build, v.opt)) ∨
    (∃ c t, newExtraChars v = c :: t ∧ isSepChar c = true ∧
      parseNewSchemeExtra (some (c :: t)) = .ok (v.preRelease, v.build, v.opt)) := by
  obtain ⟨f, qi, qu, qp, tr, pre, bld, op⟩ := v
  simp only at hpre hb ⊢
  rcases pre with tag | n | _
  · right
    refine ⟨'-', tag ++
      ((match bld with
        | some b => '+' :: natDec b
        | Option.none => []) ++
       (match op with
        | some o => '-' :: o
        | Option.none => [])), ?_, by decide, ?_⟩
    · unfold newExtraChars
      rcases op with _ | o <;> rcases bld with _ | b <;> simp
    · exact parseNewSchemeExtra_dash_spec (.other tag) tag
        (preReleaseFromStr_other hpre) (canonPre_other_not_mem hpre).1
        (canonPre_other_not_mem hpre).2 bld hb op
  · right
    have hn : n < 2 ^ 32 := by simpa [CanonPre] using hpre
    refine ⟨'-', natDec n ++
      ((match bld with
        | some b => '+' :: natDec b
        | Option.none => []) ++
       (match op with
        | some o => '-' :: o
        | Option.none => [])), ?_, by decide, ?_⟩
    · unfold newExtraChars
      rcases op with _ | o <;> rcases bld with _ | b <;> simp
    · exact parseNewSchemeExtra_dash_spec (.numeric n) (natDec n)
        (preReleaseFromStr_natDec hn)
        (not_mem_of_all_digits (natDec_all_digits n) (by decide))
        (not_mem_of_all_digits (natDec_all_digits n) (by decide)) bld hb op
  · rcases bld with _ | b
    · rcases op with _ | o
      · exact Or.inl ⟨rfl, rfl⟩
      · right
        refine ⟨'+', '-' :: o, ?_, by decide, ?_⟩
        · unfold newExtraChars
          simp
        · exact parseNewSchemeExtra_plusdash o
    · right
      have hb' : b < 2 ^ 32 := by simpa [CanonBuild] using hb
      refine ⟨'+', natDec b ++
        (match op with
         | some o => '-' :: o
         | Option.none => []), ?_, by decide, ?_⟩
      · unfold newExtraChars
        rcases op with _ | o <;> simp
      · exact parseNewSchemeExtra_plus_spec b hb' op

theorem roundtrip_new (v : NewScheme) (h : CanonNew v = true) :
    JavaVersion.fromStr (JavaVersion.new v).toChars = .ok (.new v) := by
  have hc := h
  unfold CanonNew at hc
  simp only [Bool.and_eq_true, decide_eq_true_eq] at hc
  obtain ⟨⟨⟨⟨⟨⟨⟨⟨hf2, hf32⟩, hi⟩, hu⟩, hp⟩, hta⟩, htl⟩, hpre⟩, hb⟩ := hc
  have htl' : ∀ t, v.trailing.getLast? = some t → t ≠ 0 := by
    intro t ht
    rw [ht] at htl
    simpa using htl
  have hta' : ∀ t ∈ v.trailing, t < 2 ^ 32 := by
    intro t ht
    rw [List.all_eq_true] at hta
    simpa using hta t ht
  have hne1 : ¬(natDec v.feature = ['1']) := by
    intro hcon
    have := (natDec_eq_one_iff v.feature hf32).mp hcon
    omega
  rw [show (JavaVersion.new v).toChars = v.toChars from rfl, toChars_new_decomp,
    List.append_assoc, ← List.append_assoc]
  rcases newExtra_parsed v hpre hb with ⟨hE, hparse⟩ | ⟨c, t, hE, hsep, hparse⟩
  · rw [hE, List.append_nil]
    unfold JavaVersion.fromStr
    rw [splitAtFirstSep_no_sep _ (newVnum_no_sep v)]
    simp only [newVnum_splitDot]
    rw [if_neg hne1]
    exact newScheme_newParts v (by omega) hf32 hi hu hp hta' htl' Option.none hparse
  · rw [hE]
    unfold JavaVersion.fromStr
    rw [splitAtFirstSep_append _ c t (newVnum_no_sep v) hsep]
    simp only [newVnum_splitDot]
    rw [if_neg hne1]
    exact newScheme_newParts v (by omega) hf32 hi hu hp hta' htl' (some (c :: t)) hparse

/-- C6 (counterexample): the claim says `to_string(parse(s)) == s` for every
accepted string `s`, canonical or not. The string `"1.8.0_0"` is accepted
(parsing to `OldScheme{minor: 8, patch: 0, update: 0}`), but re-rendering
prints `"1.8.0"`: a zero update is never printed, so the round-trip fails. -/
theorem roundtrip_string_counterexample :
    JavaVersion.fromStr ("1.8.0_0".toList) =
      .ok (.old ⟨8, 0, 0, Option.none⟩) ∧
    (JavaVersion.old ⟨8, 0, 0, Option.none⟩).toChars ≠ "1.8.0_0".toList :=
  ⟨rfl, by decide⟩

/-- C6 (amended): parsing and printing round-trip on canonical version
values: for every `v` with `CanonJava v` (all numeric fields
`u32`-representable; for the new scheme additionally `feature ≥ 2`, a
trailing list not ending in `0`, and a canonical pre-release payload),
`parse(to_string(v)) = v` — hence `to_string(parse(s)) == s` for every
string `s` in the image of `to_string` on such values. For other accepted
strings parsing normalizes the text instead (e.g. `"1.8.0_0"` re-renders as
`"1.8.0"`), so the claim as stated fails. -/
theorem roundtrip_canonical (v : JavaVersion) (h : CanonJava v = true) :
    JavaVersion.fromStr v.toChars = .ok v := by
  cases v with
  | old o => exact roundtrip_old o h
  | new n => exact roundtrip_new n h

/-- Witness for `roundtrip_canonical` at `17.0.2-ea+7-LTS`. -/
theorem roundtrip_canonical_witness :
    CanonJava sampleVersion = true ∧
      JavaVersion.fromStr sampleVersion.toChars = .ok sampleVersion :=
  ⟨by decide, roundtrip_canonical sampleVersion (by decide)⟩
